import Mathlib

/-!
# Mast Pharmacy backend — verification of the inventory / transfer / analytics core

Shallow embedding of the stock-mutating route handlers of
`src/routes/saleRoutes.js` and `src/routes/medicineRoutes.js`, together with the
Mongoose schemas of `src/models/Medicine.js` and the inline `Sale` /
`TransferHistory` schemas, and proofs of the spec's testable properties over
that embedding.

Modelling conventions:
* JavaScript numbers that hold stock quantities are modelled as `Int`
  (all quantities in play are integers well inside the exact float range);
  money (rate, total, purchasePrice) is modelled as `Rat`.
* A Mongoose document store is a list of records; `findById` is `List.find?`
  on the id, `save` of an existing document replaces the record with the same
  id and runs schema validation (`Medicine.quantity` and
  `Medicine.purchasePrice` carry `min: 0` and `required` validators in
  `src/models/Medicine.js`; a failed validation rejects the save, so the
  store is not updated and the route answers with an error).  `purchasePrice`
  is an `Option Rat` because the analytics code explicitly guards against
  documents whose `purchasePrice` is `null`/`undefined` (legacy data).
* Route handlers are total functions `DB → inputs → DB × Except Err β`: the
  returned `DB` is the persistent state after the request (writes performed
  before a failure persist, matching the non-transactional sale routes),
  while the transfer route runs inside a MongoDB session transaction whose
  failure aborts all of its writes, so it returns the unchanged `DB` on error.
* String helpers (`toLowerCase`, `trim`, `startsWith`, `split(' (')[0]` and
  the qualifier-stripping regex replace) are implemented by structural
  recursion on the character list so that they are kernel-computable;
  they agree with the JavaScript originals on the ASCII data the routes
  handle (Unicode case folding / exotic whitespace are out of scope).
-/

/-- ASCII whitespace, the fragment of JavaScript's `\s` / `trim` relevant here. -/
def isSpaceChar (c : Char) : Bool :=
  c = ' ' || c = '\t' || c = '\n' || c = '\r'

/-- Character-level lower-casing, JavaScript `toLowerCase` on ASCII. -/
def lowerChars (cs : List Char) : List Char := cs.map Char.toLower

/-- JavaScript `String.prototype.trim` (ASCII fragment). -/
def trimChars (cs : List Char) : List Char :=
  ((cs.dropWhile isSpaceChar).reverse.dropWhile isSpaceChar).reverse

/-- `cs` begins with `pre` (JavaScript `startsWith`). -/
def leadsWith : List Char → List Char → Bool
  | _, [] => true
  | [], _ :: _ => false
  | c :: cs, p :: ps => c = p && leadsWith cs ps

def lowerStr (s : String) : String := String.mk (lowerChars s.data)

def trimStr (s : String) : String := String.mk (trimChars s.data)

/-- `s.toLowerCase().startsWith(pre.toLowerCase())` of JavaScript. -/
def startsLower (s pre : String) : Bool :=
  leadsWith (lowerChars s.data) (lowerChars pre.data)

/-- Characters of `s` before the first occurrence of the separator `" ("`:
the JavaScript `s.split(' (')[0]` used by the transfer route. -/
def beforeParen : List Char → List Char
  | [] => []
  | c :: cs =>
    if c = ' ' && cs.head? = some '(' then []
    else c :: beforeParen cs

/-- `medicineRoutes.js` line `const fromClinicName = fromClinic.split(' (')[0]`:
the clinic label truncated at the first `" ("`. -/
def normalizeClinic (s : String) : String := String.mk (beforeParen s.data)

/-- The trailing-qualifier words of the analytics fuzzy matcher. -/
def qualifierWords : List (List Char) :=
  ["new".data, "old".data, "latest".data, "updated".data]

/-- Case-insensitively strip `w` (reversed) from the front of `r`. -/
def dropRevWord (r : List Char) (w : List Char) : Option (List Char) :=
  match w with
  | [] => some r
  | x :: xs =>
    match r with
    | [] => none
    | c :: cs => if c.toLower = x.toLower then dropRevWord cs xs else none

/-- One step of `key.replace(/\s+(new|old|latest|updated)\s*$/i, '')` on the
reversed character list: drop trailing whitespace, then a qualifier word,
then the (non-empty) run of whitespace in front of it; if the pattern does
not match, return the input unchanged. -/
def stripQualifierRev (r : List Char) : List Char :=
  let r1 := r.dropWhile isSpaceChar
  let rest := (qualifierWords.map (fun w => dropRevWord r1 w.reverse)).foldl
    (fun acc o => match acc with | some x => some x | none => o) none
  match rest with
  | some r2 =>
    match r2 with
    | [] => r
    | c :: cs => if isSpaceChar c then (c :: cs).dropWhile isSpaceChar else r
  | none => r

/-- `key.replace(/\s+(new|old|latest|updated)\s*$/i, '')` of
`saleRoutes.js` analytics (lines 142 and 144). -/
def stripQualifier (cs : List Char) : List Char :=
  (stripQualifierRev cs.reverse).reverse

/-- `key.replace(/\s+(new|old|latest|updated)\s*$/i, '').trim()` as a `String`
operation; both call sites apply `.trim()` right after the replace. -/
def stripKey (s : String) : String := String.mk (trimChars (stripQualifier s.data))

/-! ## Data model

`src/models/Medicine.js` (fields `name`, `description`, `quantity`,
`purchasePrice`, `clinic`; the route-level `expiryDate` is not in the schema
and is dropped by Mongoose), the inline `Sale` schema of `saleRoutes.js`
lines 6-16 and the inline `TransferHistory` schema of `medicineRoutes.js`
lines 88-94.  Document ids are `Nat`; a `DB` carries a fresh-id counter,
standing for MongoDB's generation of distinct `_id`s. -/

structure Medicine where
  id : Nat
  name : String
  description : String
  quantity : Int
  purchasePrice : Option Rat
  clinic : String
  deriving DecidableEq, Repr

structure Sale where
  id : Nat
  /-- the `medicine` ObjectId reference -/
  medicine : Nat
  medicineName : String
  clinic : String
  quantity : Int
  rate : Rat
  total : Rat
  soldBy : String
  soldByName : String
  soldAt : Int
  deriving DecidableEq, Repr

structure TransferRec where
  medicineName : String
  quantity : Int
  fromClinic : String
  toClinic : String
  date : Int
  deriving DecidableEq, Repr

structure DB where
  medicines : List Medicine
  sales : List Sale
  transfers : List TransferRec
  nextId : Nat
  deriving DecidableEq, Repr

/-- Error outcomes of the route handlers (each constructor corresponds to one
distinct error response of the JavaScript code). -/
inductive Err where
  /-- `'Medicine not found'` (404, recordSale) -/
  | medicineNotFound
  /-- `'Not enough stock'` (400, recordSale) -/
  | notEnoughStock
  /-- `'Sale not found'` (404, deleteSale / editSale) -/
  | saleNotFound
  /-- `'New medicine not found'` (404, editSale) -/
  | newMedicineNotFound
  /-- a Mongoose schema-validation failure raised by `document.save()`
  (caught by the route's `catch`, answered as 500 / transfer abort) -/
  | validationFailed
  /-- `'Invalid transfer data'` (400, transfer) -/
  | invalidTransfer
  /-- `'Cannot transfer to the same clinic'` (400, transfer) -/
  | sameClinic
  /-- `'Source medicine not found'` (400, transfer) -/
  | sourceNotFound
  /-- `'Not enough quantity in source clinic'` (400, transfer) -/
  | notEnoughQuantity
  deriving DecidableEq, Repr

/-- Mongoose validation of a `Medicine` document, from `src/models/Medicine.js`:
`quantity` has `min: 0`, `purchasePrice` is `required` with `min: 0`. -/
def medOk (m : Medicine) : Bool :=
  0 ≤ m.quantity &&
    (match m.purchasePrice with
     | some p => 0 ≤ p
     | none => false)

/-- `Medicine.findById(id)` against an explicit store. -/
def findMedicineIn (meds : List Medicine) (mid : Nat) : Option Medicine :=
  meds.find? (fun m => m.id = mid)

/-- `Medicine.findById(id)`. -/
def findMedicine (db : DB) (mid : Nat) : Option Medicine :=
  findMedicineIn db.medicines mid

/-- `Sale.findById(id)`. -/
def findSale (db : DB) (sid : Nat) : Option Sale :=
  db.sales.find? (fun s => s.id = sid)

/-- Write back a medicine document: every stored record with the same id is
replaced (ids are unique in well-formed stores). -/
def putMedicine (db : DB) (m : Medicine) : DB :=
  { db with medicines := db.medicines.map (fun x => if x.id = m.id then m else x) }

/-- `medicine.save()` on an existing document: validates, then writes back. -/
def saveMedicine (db : DB) (m : Medicine) : Except Err DB :=
  if medOk m then .ok (putMedicine db m) else .error .validationFailed

/-- `new Medicine(...); await medicine.save()`: validates, then appends with a
fresh id. -/
def createMedicine (db : DB) (m : Medicine) : Except Err DB :=
  if medOk m then
    .ok { db with medicines := db.medicines ++ [m], nextId := db.nextId + 1 }
  else .error .validationFailed

/-- Replace the stored sale with the same id. -/
def putSale (db : DB) (s : Sale) : DB :=
  { db with sales := db.sales.map (fun x => if x.id = s.id then s else x) }

/-- `Sale.findByIdAndDelete(id)`. -/
def removeSale (db : DB) (sid : Nat) : DB :=
  { db with sales := db.sales.filter (fun s => ¬ s.id = sid) }

/-! ## Sale routes (`src/routes/saleRoutes.js`) -/

/-- `router.post('/')` of `saleRoutes.js` (lines 21-55): record a sale.
Looks up the medicine (404 if absent), rejects when
`medicine.quantity < quantity` (400 `'Not enough stock'`), decrements and
saves the medicine, then creates the sale with `total = quantity * rate` and
`soldAt` defaulting to the current time. -/
def recordSale (db : DB) (medicineId : Nat) (medicineName clinic : String)
    (quantity : Int) (rate : Rat) (soldBy soldByName : String)
    (soldAt? : Option Int) (now : Int) : DB × Except Err Sale :=
  match findMedicine db medicineId with
  | none => (db, .error .medicineNotFound)
  | some medicine =>
    if medicine.quantity < quantity then (db, .error .notEnoughStock)
    else
      match saveMedicine db { medicine with quantity := medicine.quantity - quantity } with
      | .error e => (db, .error e)
      | .ok db1 =>
        let sale : Sale :=
          { id := db1.nextId, medicine := medicineId, medicineName := medicineName,
            clinic := clinic, quantity := quantity, rate := rate,
            total := rate * (quantity : Rat), soldBy := soldBy,
            soldByName := soldByName, soldAt := soldAt?.getD now }
        ({ db1 with sales := db1.sales ++ [sale], nextId := db1.nextId + 1 }, .ok sale)

/-- `router.delete('/:id')` of `saleRoutes.js` (lines 398-413): delete a sale,
restoring the referenced medicine's quantity first; if the medicine no longer
exists the restoration is silently skipped and the sale is still deleted. -/
def deleteSale (db : DB) (saleId : Nat) : DB × Except Err Unit :=
  match findSale db saleId with
  | none => (db, .error .saleNotFound)
  | some sale =>
    match findMedicine db sale.medicine with
    | some medicine =>
      match saveMedicine db { medicine with quantity := medicine.quantity + sale.quantity } with
      | .error e => (db, .error e)
      | .ok db1 => (removeSale db1 saleId, .ok ())
    | none => (removeSale db saleId, .ok ())

/-- Shared tail of `router.put('/:id')` (lines 441-446): update the sale's
quantity, rate, `total = quantity * rate` and optionally `soldAt`, then save. -/
def finishEditSale (db : DB) (sale : Sale) (quantity : Int) (rate : Rat)
    (soldAt? : Option Int) : DB × Except Err Sale :=
  let sale1 := { sale with
    quantity := quantity, rate := rate, total := rate * (quantity : Rat),
    soldAt := soldAt?.getD sale.soldAt }
  (putSale db sale1, .ok sale1)

/-- `router.put('/:id')` of `saleRoutes.js`, branch after the restore (lines
428-440): if a `medicineId` different from the sale's current reference was
supplied, look it up (404 `'New medicine not found'` if absent — note the
restore already persisted) and decrement it by the new quantity with no stock
check (only the schema's `min: 0` validator guards the save); otherwise
decrement the sale's own (just restored) medicine, if it exists. -/
def editSaleApply (db : DB) (sale : Sale) (medicineId? : Option Nat)
    (medicineName : String) (quantity : Int) (rate : Rat)
    (soldAt? : Option Int) : DB × Except Err Sale :=
  match medicineId? with
  | some mid =>
    if mid ≠ sale.medicine then
      match findMedicine db mid with
      | none => (db, .error .newMedicineNotFound)
      | some newMed =>
        match saveMedicine db { newMed with quantity := newMed.quantity - quantity } with
        | .error e => (db, .error e)
        | .ok db1 =>
          finishEditSale db1 { sale with medicine := mid, medicineName := medicineName }
            quantity rate soldAt?
    else
      match findMedicine db sale.medicine with
      | some medicine =>
        match saveMedicine db { medicine with quantity := medicine.quantity - quantity } with
        | .error e => (db, .error e)
        | .ok db1 => finishEditSale db1 sale quantity rate soldAt?
      | none => finishEditSale db sale quantity rate soldAt?
  | none =>
    match findMedicine db sale.medicine with
    | some medicine =>
      match saveMedicine db { medicine with quantity := medicine.quantity - quantity } with
      | .error e => (db, .error e)
      | .ok db1 => finishEditSale db1 sale quantity rate soldAt?
    | none => finishEditSale db sale quantity rate soldAt?

/-- `router.put('/:id')` of `saleRoutes.js` (lines 416-450): edit a sale.
First restores the old medicine's stock by the sale's old quantity (persisted
immediately), then applies the new decrement per `editSaleApply`, then updates
the sale record. -/
def editSale (db : DB) (saleId : Nat) (medicineId? : Option Nat)
    (medicineName : String) (quantity : Int) (rate : Rat)
    (soldAt? : Option Int) : DB × Except Err Sale :=
  match findSale db saleId with
  | none => (db, .error .saleNotFound)
  | some sale =>
    match findMedicine db sale.medicine with
    | some medicine =>
      match saveMedicine db { medicine with quantity := medicine.quantity + sale.quantity } with
      | .error e => (db, .error e)
      | .ok db1 => editSaleApply db1 sale medicineId? medicineName quantity rate soldAt?
    | none => editSaleApply db sale medicineId? medicineName quantity rate soldAt?

/-! ## Medicine routes (`src/routes/medicineRoutes.js`) -/

/-- `router.delete('/:id')` of `medicineRoutes.js` (lines 141-149):
`Medicine.findByIdAndDelete`. -/
def deleteMedicine (db : DB) (mid : Nat) : DB × Except Err Unit :=
  match findMedicine db mid with
  | none => (db, .error .medicineNotFound)
  | some _ =>
    ({ db with medicines := db.medicines.filter (fun m => ¬ m.id = mid) }, .ok ())

/-- The transactional body of `router.post('/transfer')` (lines 197-229):
load the source medicine by `(id, clinic = fromClinicName)`, check stock,
decrement; find the destination by `(name = medicineName, clinic =
toClinicName)` and increment it, or create a copy of the source with the
transferred quantity; append a `TransferHistory` record.  Any error aborts
the whole transaction. -/
def transferTxn (db : DB) (mid : Nat) (medicineName fromName toName : String)
    (quantity : Int) (now : Int) : Except Err DB :=
  match db.medicines.find? (fun m => m.id = mid && m.clinic = fromName) with
  | none => .error .sourceNotFound
  | some fromMed =>
    if fromMed.quantity < quantity then .error .notEnoughQuantity
    else
      match saveMedicine db { fromMed with quantity := fromMed.quantity - quantity } with
      | .error e => .error e
      | .ok db1 =>
        let rec2 : TransferRec :=
          { medicineName := fromMed.name, quantity := quantity,
            fromClinic := fromName, toClinic := toName, date := now }
        match db1.medicines.find? (fun m => m.name = medicineName && m.clinic = toName) with
        | some toMed =>
          match saveMedicine db1 { toMed with quantity := toMed.quantity + quantity } with
          | .error e => .error e
          | .ok db2 => .ok { db2 with transfers := db2.transfers ++ [rec2] }
        | none =>
          match createMedicine db1
              { id := db1.nextId, name := fromMed.name,
                description := fromMed.description, quantity := quantity,
                purchasePrice := fromMed.purchasePrice, clinic := toName } with
          | .error e => .error e
          | .ok db2 => .ok { db2 with transfers := db2.transfers ++ [rec2] }

/-- `router.post('/transfer')` of `medicineRoutes.js` (lines 175-238):
normalize both clinic labels with `split(' (')[0]`, validate
(`'Invalid transfer data'` on a missing/empty field or `quantity <= 0`,
`'Cannot transfer to the same clinic'` when the normalized labels agree),
then run `transferTxn` inside a session transaction — on error the
transaction is aborted, so the store is returned unchanged. -/
def transfer (db : DB) (fromClinic toClinic : String) (medicineId? : Option Nat)
    (medicineName : String) (quantity : Int) (now : Int) : DB × Except Err Unit :=
  match medicineId? with
  | none => (db, .error .invalidTransfer)
  | some mid =>
    if normalizeClinic fromClinic = "" || normalizeClinic toClinic = "" ||
        medicineName = "" || quantity ≤ 0 then
      (db, .error .invalidTransfer)
    else if normalizeClinic fromClinic = normalizeClinic toClinic then
      (db, .error .sameClinic)
    else
      match transferTxn db mid medicineName (normalizeClinic fromClinic)
          (normalizeClinic toClinic) quantity now with
      | .ok db1 => (db1, .ok ())
      | .error e => (db, .error e)

/-! ## Analytics aggregator (`router.get('/analytics')`, `saleRoutes.js`
lines 89-192; `router.get('/monthly-analytics')` repeats the same algorithm
on a month window).

The JavaScript objects `medicineMap` and `medMap` are modelled as association
lists preserving key insertion order (string-keyed own-property dictionaries).
`populate('medicine', 'purchasePrice')` is a lookup of the sale's medicine
reference in the medicine store. -/

/-- `med.name.toLowerCase().trim()`, the grouping key of `medicineMap`
(line 103). -/
def nameKey (m : Medicine) : String := trimStr (lowerStr m.name)

/-- `medicineMap` construction (lines 100-108): group all medicines by
`nameKey`, keys in first-appearance order, each group in store order. -/
def buildMedicineMap (meds : List Medicine) : List (String × List Medicine) :=
  meds.foldl
    (fun acc med =>
      if acc.any (fun kv => kv.1 = nameKey med) then
        acc.map (fun kv => if kv.1 = nameKey med then (kv.1, kv.2 ++ [med]) else kv)
      else acc ++ [(nameKey med, [med])])
    []

/-- Lines 152-167: among the candidate medicines, prefer an exact clinic
match, then one whose clinic (lower-cased) starts with the sale's clinic
(lower-cased), then any candidate with a non-null purchase price; return the
chosen candidate's purchase price if it is non-null. -/
def pickByClinic (cands : List Medicine) (saleClinic : String) : Option Rat :=
  let cur : Option Medicine :=
    match cands.find? (fun m => m.clinic = saleClinic) with
    | some m => some m
    | none =>
      match cands.find? (fun m => startsLower m.clinic saleClinic) with
      | some m => some m
      | none => cands.find? (fun m => m.purchasePrice.isSome)
  cur.bind (fun m => m.purchasePrice)

/-- Line 138: the `medicineMap` group stored under exactly `key`
(`medicineMap[key] || []`). -/
def exactMatches (mmap : List (String × List Medicine)) (key : String) : List Medicine :=
  ((mmap.find? (fun kv => kv.1 = key)).map (fun kv => kv.2)).getD []

/-- Lines 141-150: the fallback scan — the first map entry (in insertion
order) whose key equals the sale's key after stripping a trailing qualifier
from both, or no candidates. -/
def fuzzyMatches (mmap : List (String × List Medicine)) (key : String) : List Medicine :=
  match mmap.find? (fun kv => stripKey kv.1 = stripKey key) with
  | some kv => kv.2
  | none => []

/-- Lines 135-167: name-based purchase-price lookup for a sale whose populated
medicine reference did not supply a price.  Looks up the exact lower-cased
trimmed name in `medicineMap`; if that group is empty, takes the first
fuzzy-matching group; then applies the clinic preference chain. -/
def lookupByName (mmap : List (String × List Medicine)) (medicineName saleClinic : String) :
    Option Rat :=
  pickByClinic
    (if (exactMatches mmap (trimStr (lowerStr medicineName))).isEmpty then
      fuzzyMatches mmap (trimStr (lowerStr medicineName))
    else exactMatches mmap (trimStr (lowerStr medicineName)))
    saleClinic

/-- Lines 131-168: resolve the purchase price of one sale — directly from the
populated medicine reference when it exists and carries a non-null
`purchasePrice`, else (when the snapshotted name is non-empty) through
`lookupByName`. -/
def resolvePurchasePrice (meds : List Medicine) (mmap : List (String × List Medicine))
    (sale : Sale) : Option Rat :=
  match (findMedicineIn meds sale.medicine).bind (fun m => m.purchasePrice) with
  | some p => some p
  | none =>
    if sale.medicineName = "" then none
    else lookupByName mmap sale.medicineName sale.clinic

/-- One `medMap` group while the per-sale loop runs (lines 118-125). -/
structure MedGroup where
  name : String
  quantity : Int
  revenue : Rat
  profit : Rat
  hasPurchase : Bool
  deriving DecidableEq, Repr

/-- One group of the final analytics answer: `profit` is `none` when no sale
of the group resolved a purchase price (lines 180-185). -/
structure GroupOut where
  name : String
  quantity : Int
  revenue : Rat
  profit : Option Rat
  deriving DecidableEq, Repr

structure AnalyticsResult where
  totalSales : Int
  totalRevenue : Rat
  totalProfit : Rat
  topMedicines : List GroupOut
  deriving DecidableEq, Repr

/-- Lines 118-126: create the `medMap` entry for the sale's snapshotted name
if it is not present yet. -/
def ensureGroup (name : String) (gs : List (String × MedGroup)) :
    List (String × MedGroup) :=
  if gs.any (fun kv => kv.1 = name) then gs
  else gs ++ [(name, (⟨name, 0, 0, 0, false⟩ : MedGroup))]

/-- Lines 128-129: accumulate the sale's quantity and revenue on its group. -/
def bumpGroup (sale : Sale) (gs : List (String × MedGroup)) :
    List (String × MedGroup) :=
  gs.map (fun kv =>
    if kv.1 = sale.medicineName then
      (kv.1, { kv.2 with quantity := kv.2.quantity + sale.quantity,
                         revenue := kv.2.revenue + sale.total })
    else kv)

/-- Lines 172-175: accumulate a resolved sale's profit on its group and mark
the group as having a purchase price. -/
def profitGroup (sale : Sale) (saleProfit : Rat) (gs : List (String × MedGroup)) :
    List (String × MedGroup) :=
  gs.map (fun kv =>
    if kv.1 = sale.medicineName then
      (kv.1, { kv.2 with profit := kv.2.profit + saleProfit, hasPurchase := true })
    else kv)

/-- Body of the per-sale loop (lines 117-177) acting on the accumulated
`(totalProfit, medMap)`. -/
def analyticsStep (meds : List Medicine) (mmap : List (String × List Medicine))
    (acc : Rat × List (String × MedGroup)) (sale : Sale) :
    Rat × List (String × MedGroup) :=
  match resolvePurchasePrice meds mmap sale with
  | some pp =>
    (acc.1 + (sale.rate - pp) * (sale.quantity : Rat),
     profitGroup sale ((sale.rate - pp) * (sale.quantity : Rat))
       (bumpGroup sale (ensureGroup sale.medicineName acc.2)))
  | none => (acc.1, bumpGroup sale (ensureGroup sale.medicineName acc.2))

/-- Lines 180-185: expose a group, turning `profit` into `none` when no sale
of the group had a purchase price. -/
def finalizeGroup (g : MedGroup) : GroupOut :=
  { name := g.name, quantity := g.quantity, revenue := g.revenue,
    profit := if g.hasPurchase then some g.profit else none }

/-- Stable insertion into a quantity-descending list (the behaviour of the
stable `sort((a, b) => b.quantity - a.quantity)` of line 187). -/
def insertByQty (g : GroupOut) : List GroupOut → List GroupOut
  | [] => [g]
  | h :: t => if h.quantity < g.quantity then g :: h :: t else h :: insertByQty g t

/-- Stable sort by quantity, descending (line 187). -/
def sortByQtyDesc (l : List GroupOut) : List GroupOut := l.foldr insertByQty []

/-- The whole analytics computation (lines 89-188) given the fetched sales
and the full medicine store. -/
def analytics (meds : List Medicine) (sales : List Sale) : AnalyticsResult :=
  let mmap := buildMedicineMap meds
  let totalSales := (sales.map (fun s => s.quantity)).sum
  let totalRevenue := (sales.map (fun s => s.total)).sum
  let out := sales.foldl (analyticsStep meds mmap) (0, [])
  { totalSales := totalSales, totalRevenue := totalRevenue,
    totalProfit := out.1,
    topMedicines := (sortByQtyDesc ((out.2).map (fun kv => finalizeGroup kv.2))).take 10 }

/-! ## Well-formed stores and operation sequences -/

/-- Well-formedness of a store: every medicine satisfies its schema
validators, ids are below the fresh-id counter, and ids are pairwise
distinct (MongoDB `_id` uniqueness). -/
def wf (db : DB) : Prop :=
  (∀ m ∈ db.medicines, medOk m = true ∧ m.id < db.nextId) ∧
  (∀ s ∈ db.sales, s.id < db.nextId) ∧
  (db.medicines.map Medicine.id).Nodup ∧
  (db.sales.map Sale.id).Nodup

instance : DecidablePred wf := fun db => by unfold wf; infer_instance

/-- The quantity currently stored for medicine `mid`, if present. -/
def quantityOf (db : DB) (mid : Nat) : Option Int :=
  (findMedicine db mid).map (fun m => m.quantity)

/-- One client request against the stock-mutating sale/transfer routes (the
operations quantified over by the non-negativity property). -/
inductive Op where
  | record (medicineId : Nat) (medicineName clinic : String) (quantity : Int)
      (rate : Rat) (soldBy soldByName : String) (soldAt? : Option Int) (now : Int)
  | edit (saleId : Nat) (medicineId? : Option Nat) (medicineName : String)
      (quantity : Int) (rate : Rat) (soldAt? : Option Int)
  | del (saleId : Nat)
  | xfer (fromClinic toClinic : String) (medicineId? : Option Nat)
      (medicineName : String) (quantity : Int) (now : Int)
  deriving DecidableEq, Repr

/-- The store left behind by one request (successful or not). -/
def applyOp (db : DB) : Op → DB
  | .record mid mn c q r sb sbn sAt now => (recordSale db mid mn c q r sb sbn sAt now).1
  | .edit sid mid? mn q r sAt => (editSale db sid mid? mn q r sAt).1
  | .del sid => (deleteSale db sid).1
  | .xfer fc tc mid? mn q now => (transfer db fc tc mid? mn q now).1

/-- The store after a whole sequence of requests. -/
def runOps (db : DB) (ops : List Op) : DB := ops.foldl applyOp db


deriving instance DecidableEq for Except

/-! ## Store lemmas -/

/-- The id-replacing write-back of `putMedicine` at the list level. -/
def replaceMed (m : Medicine) (l : List Medicine) : List Medicine :=
  l.map (fun x => if x.id = m.id then m else x)

theorem putMedicine_medicines (db : DB) (m : Medicine) :
    (putMedicine db m).medicines = replaceMed m db.medicines := rfl

theorem replaceMed_nil (m : Medicine) : replaceMed m [] = [] := rfl

theorem replaceMed_cons (m x : Medicine) (xs : List Medicine) :
    replaceMed m (x :: xs) =
      (if x.id = m.id then m else x) :: replaceMed m xs := rfl

theorem replaceMed_map_id (l : List Medicine) (m : Medicine) :
    (replaceMed m l).map Medicine.id = l.map Medicine.id := by
  induction l with
  | nil => rfl
  | cons x xs ih =>
    rw [replaceMed_cons, List.map_cons, List.map_cons, ih]
    by_cases h : x.id = m.id
    · rw [if_pos h, h]
    · rw [if_neg h]

theorem mem_replaceMed {l : List Medicine} {m x : Medicine}
    (hx : x ∈ replaceMed m l) : x ∈ l ∨ x = m := by
  rcases List.mem_map.mp hx with ⟨y, hy, hyx⟩
  by_cases h : y.id = m.id
  · right
    rw [if_pos h] at hyx
    exact hyx.symm
  · left
    rw [if_neg h] at hyx
    exact hyx ▸ hy

theorem replaceMed_eq_self {l : List Medicine} {m : Medicine}
    (h : ∀ y ∈ l, ¬ y.id = m.id) : replaceMed m l = l := by
  induction l with
  | nil => rfl
  | cons x xs ih =>
    rw [replaceMed_cons, if_neg (h x (List.mem_cons_self x xs)),
      ih (fun y hy => h y (List.mem_cons_of_mem x hy))]

theorem find?_replaceMed_ne (l : List Medicine) (m : Medicine) (i : Nat) (h : ¬ i = m.id) :
    (replaceMed m l).find? (fun y => y.id = i) = l.find? (fun y => y.id = i) := by
  induction l with
  | nil => rfl
  | cons x xs ih =>
    rw [replaceMed_cons]
    by_cases hx : x.id = m.id
    · have hxi : ¬ x.id = i := fun hc => h (hc ▸ hx ▸ rfl)
      have hmi : (decide (m.id = i)) = false := decide_eq_false (fun hc => h hc.symm)
      have hxi2 : (decide (x.id = i)) = false := decide_eq_false hxi
      simp only [if_pos hx, List.find?_cons, hmi, hxi2]
      exact ih
    · rw [if_neg hx]
      by_cases hxi : x.id = i
      · have h1 : (decide (x.id = i)) = true := decide_eq_true hxi
        simp only [List.find?_cons, h1]
      · have h1 : (decide (x.id = i)) = false := decide_eq_false hxi
        simp only [List.find?_cons, h1]
        exact ih

theorem find?_replaceMed_eq (l : List Medicine) (m : Medicine) :
    (replaceMed m l).find? (fun y => y.id = m.id) =
      (l.find? (fun y => y.id = m.id)).map (fun _ => m) := by
  induction l with
  | nil => rfl
  | cons x xs ih =>
    rw [replaceMed_cons]
    by_cases hx : x.id = m.id
    · have h1 : (decide (m.id = m.id)) = true := decide_eq_true rfl
      have h2 : (decide (x.id = m.id)) = true := decide_eq_true hx
      simp [if_pos hx, List.find?_cons, h1, h2, decide_True]
    · have h2 : (decide (x.id = m.id)) = false := decide_eq_false hx
      simp only [if_neg hx, List.find?_cons, h2]
      exact ih

theorem findMedicine_putMedicine_ne (db : DB) (m : Medicine) (i : Nat) (h : ¬ i = m.id) :
    findMedicine (putMedicine db m) i = findMedicine db i :=
  find?_replaceMed_ne db.medicines m i h

theorem findMedicine_putMedicine_eq (db : DB) (m : Medicine) :
    findMedicine (putMedicine db m) m.id =
      (findMedicine db m.id).map (fun _ => m) :=
  find?_replaceMed_eq db.medicines m

/-- Members of a store with `Nodup` ids are determined by their id. -/
theorem eq_of_id_eq {l : List Medicine} (h : (l.map Medicine.id).Nodup)
    {a b : Medicine} (ha : a ∈ l) (hb : b ∈ l) (hid : a.id = b.id) : a = b :=
  List.inj_on_of_nodup_map h ha hb hid

theorem find?_eq_some_of_mem {l : List Medicine} (h : (l.map Medicine.id).Nodup)
    {a : Medicine} (ha : a ∈ l) : l.find? (fun y => y.id = a.id) = some a := by
  induction l with
  | nil => cases ha
  | cons x xs ih =>
    rw [List.map_cons, List.nodup_cons] at h
    rcases List.mem_cons.mp ha with rfl | ha2
    · have h1 : (decide (a.id = a.id)) = true := decide_eq_true rfl
      simp only [List.find?_cons, h1, decide_True]
    · have hxa : (decide (x.id = a.id)) = false := by
        refine decide_eq_false ?_
        intro hc
        exact h.1 (hc ▸ List.mem_map_of_mem Medicine.id ha2)
      simp only [List.find?_cons, hxa]
      exact ih h.2 ha2

theorem sum_replaceMed {l : List Medicine} {m m0 : Medicine}
    (h : (l.map Medicine.id).Nodup) (h0 : m0 ∈ l) (hid : m.id = m0.id) :
    ((replaceMed m l).map Medicine.quantity).sum =
      (l.map Medicine.quantity).sum - m0.quantity + m.quantity := by
  induction l with
  | nil => cases h0
  | cons x xs ih =>
    rw [List.map_cons, List.nodup_cons] at h
    rcases List.mem_cons.mp h0 with rfl | h0x
    · have htail : ∀ y ∈ xs, ¬ y.id = m.id := by
        intro y hy hc
        refine h.1 ?_
        rw [← hid, ← hc]
        exact List.mem_map_of_mem Medicine.id hy
      rw [replaceMed_cons, if_pos hid.symm, replaceMed_eq_self htail,
        List.map_cons, List.map_cons, List.sum_cons, List.sum_cons]
      ring
    · have hxm : ¬ x.id = m.id := by
        intro hc
        refine h.1 ?_
        rw [hc, hid]
        exact List.mem_map_of_mem Medicine.id h0x
      rw [replaceMed_cons, if_neg hxm, List.map_cons, List.map_cons,
        List.sum_cons, List.sum_cons, ih h.2 h0x]
      ring

/-! ## Sale-store analogues -/

def replaceSale (s : Sale) (l : List Sale) : List Sale :=
  l.map (fun x => if x.id = s.id then s else x)

theorem putSale_sales (db : DB) (s : Sale) :
    (putSale db s).sales = replaceSale s db.sales := rfl

theorem replaceSale_cons (s x : Sale) (xs : List Sale) :
    replaceSale s (x :: xs) =
      (if x.id = s.id then s else x) :: replaceSale s xs := rfl

theorem replaceSale_map_id (l : List Sale) (s : Sale) :
    (replaceSale s l).map Sale.id = l.map Sale.id := by
  induction l with
  | nil => rfl
  | cons x xs ih =>
    rw [replaceSale_cons, List.map_cons, List.map_cons, ih]
    by_cases h : x.id = s.id
    · rw [if_pos h, h]
    · rw [if_neg h]

theorem mem_replaceSale {l : List Sale} {s x : Sale}
    (hx : x ∈ replaceSale s l) : x ∈ l ∨ x = s := by
  rcases List.mem_map.mp hx with ⟨y, hy, hyx⟩
  by_cases h : y.id = s.id
  · right
    rw [if_pos h] at hyx
    exact hyx.symm
  · left
    rw [if_neg h] at hyx
    exact hyx ▸ hy

theorem find?_replaceSale_eq (l : List Sale) (s : Sale) :
    (replaceSale s l).find? (fun y => y.id = s.id) =
      (l.find? (fun y => y.id = s.id)).map (fun _ => s) := by
  induction l with
  | nil => rfl
  | cons x xs ih =>
    rw [replaceSale_cons]
    by_cases hx : x.id = s.id
    · have h1 : (decide (s.id = s.id)) = true := decide_eq_true rfl
      have h2 : (decide (x.id = s.id)) = true := decide_eq_true hx
      simp [if_pos hx, List.find?_cons, h1, h2, decide_True]
    · have h2 : (decide (x.id = s.id)) = false := decide_eq_false hx
      simp only [if_neg hx, List.find?_cons, h2]
      exact ih

theorem sale_find?_eq_some_of_mem {l : List Sale} (h : (l.map Sale.id).Nodup)
    {a : Sale} (ha : a ∈ l) : l.find? (fun y => y.id = a.id) = some a := by
  induction l with
  | nil => cases ha
  | cons x xs ih =>
    rw [List.map_cons, List.nodup_cons] at h
    rcases List.mem_cons.mp ha with rfl | ha2
    · have h1 : (decide (a.id = a.id)) = true := decide_eq_true rfl
      simp only [List.find?_cons, h1, decide_True]
    · have hxa : (decide (x.id = a.id)) = false := by
        refine decide_eq_false ?_
        intro hc
        exact h.1 (hc ▸ List.mem_map_of_mem Sale.id ha2)
      simp only [List.find?_cons, hxa]
      exact ih h.2 ha2

/-! ## Projection facts of the write primitives -/

theorem putMedicine_sales (db : DB) (m : Medicine) :
    (putMedicine db m).sales = db.sales := rfl

theorem putMedicine_transfers (db : DB) (m : Medicine) :
    (putMedicine db m).transfers = db.transfers := rfl

theorem putMedicine_nextId (db : DB) (m : Medicine) :
    (putMedicine db m).nextId = db.nextId := rfl

theorem saveMedicine_ok {db db1 : DB} {m : Medicine}
    (hs : saveMedicine db m = .ok db1) : medOk m = true ∧ db1 = putMedicine db m := by
  unfold saveMedicine at hs
  split at hs
  · cases hs
    constructor
    · assumption
    · rfl
  · cases hs

theorem putSale_medicines (db : DB) (s : Sale) :
    (putSale db s).medicines = db.medicines := rfl

theorem putSale_nextId (db : DB) (s : Sale) :
    (putSale db s).nextId = db.nextId := rfl

theorem removeSale_medicines (db : DB) (sid : Nat) :
    (removeSale db sid).medicines = db.medicines := rfl

/-! ## Preservation of well-formedness -/

theorem wf_putMedicine {db : DB} {m : Medicine} (h : wf db) (hm : medOk m = true) :
    wf (putMedicine db m) := by
  obtain ⟨hmeds, hsales, hnodupM, hnodupS⟩ := h
  refine ⟨?_, hsales, ?_, hnodupS⟩
  · intro x hx
    rcases List.mem_map.mp hx with ⟨y, hy, hyx⟩
    by_cases hc : y.id = m.id
    · rw [if_pos hc] at hyx
      subst hyx
      exact ⟨hm, hc ▸ (hmeds y hy).2⟩
    · rw [if_neg hc] at hyx
      subst hyx
      exact hmeds y hy
  · rw [putMedicine_medicines, replaceMed_map_id]
    exact hnodupM

theorem wf_saveMedicine {db db1 : DB} {m : Medicine} (h : wf db)
    (hs : saveMedicine db m = .ok db1) : wf db1 := by
  obtain ⟨hm, rfl⟩ := saveMedicine_ok hs
  exact wf_putMedicine h hm

theorem wf_createMedicine {db db1 : DB} {m : Medicine} (h : wf db)
    (hid : m.id = db.nextId) (hs : createMedicine db m = .ok db1) : wf db1 := by
  obtain ⟨hmeds, hsales, hnodupM, hnodupS⟩ := h
  unfold createMedicine at hs
  split at hs
  case isTrue hm =>
    cases hs
    refine ⟨?_, ?_, ?_, hnodupS⟩
    · intro x hx
      rcases List.mem_append.mp hx with hx1 | hx1
      · obtain ⟨h1, h2⟩ := hmeds x hx1
        exact ⟨h1, Nat.lt_succ_of_lt h2⟩
      · rw [List.mem_singleton] at hx1
        subst hx1
        exact ⟨hm, hid ▸ Nat.lt_succ_self _⟩
    · intro t ht
      exact Nat.lt_succ_of_lt (hsales t ht)
    · rw [List.map_append, List.nodup_append]
      refine ⟨hnodupM, List.nodup_singleton _, ?_⟩
      intro a ha hb
      rw [List.map_singleton, List.mem_singleton] at hb
      rcases List.mem_map.mp ha with ⟨y, hy, hya⟩
      have hlt := (hmeds y hy).2
      rw [hya, hb, hid] at hlt
      exact absurd hlt (Nat.lt_irrefl _)
  case isFalse => cases hs

theorem wf_appendSale {db : DB} (h : wf db) (s : Sale) (hid : s.id = db.nextId) :
    wf { db with sales := db.sales ++ [s], nextId := db.nextId + 1 } := by
  obtain ⟨hmeds, hsales, hnodupM, hnodupS⟩ := h
  refine ⟨?_, ?_, hnodupM, ?_⟩
  · intro x hx
    obtain ⟨h1, h2⟩ := hmeds x hx
    exact ⟨h1, Nat.lt_succ_of_lt h2⟩
  · intro t ht
    rcases List.mem_append.mp ht with ht1 | ht1
    · exact Nat.lt_succ_of_lt (hsales t ht1)
    · rw [List.mem_singleton] at ht1
      subst ht1
      exact hid ▸ Nat.lt_succ_self _
  · rw [List.map_append, List.nodup_append]
    refine ⟨hnodupS, List.nodup_singleton _, ?_⟩
    intro a ha hb
    rw [List.map_singleton, List.mem_singleton] at hb
    rcases List.mem_map.mp ha with ⟨y, hy, hya⟩
    have hlt := hsales y hy
    rw [hya, hb, hid] at hlt
    exact absurd hlt (Nat.lt_irrefl _)

theorem wf_putSale {db : DB} (h : wf db) (s : Sale) : wf (putSale db s) := by
  obtain ⟨hmeds, hsales, hnodupM, hnodupS⟩ := h
  refine ⟨hmeds, ?_, hnodupM, ?_⟩
  · intro x hx
    rcases List.mem_map.mp hx with ⟨y, hy, hyx⟩
    by_cases hc : y.id = s.id
    · rw [if_pos hc] at hyx
      subst hyx
      exact hc ▸ hsales y hy
    · rw [if_neg hc] at hyx
      subst hyx
      exact hsales y hy
  · rw [putSale_sales, replaceSale_map_id]
    exact hnodupS

theorem wf_removeSale {db : DB} (h : wf db) (sid : Nat) : wf (removeSale db sid) := by
  obtain ⟨hmeds, hsales, hnodupM, hnodupS⟩ := h
  refine ⟨hmeds, ?_, hnodupM, ?_⟩
  · intro x hx
    exact hsales x (List.mem_of_mem_filter hx)
  · exact List.Nodup.sublist (List.Sublist.map Sale.id (List.filter_sublist _)) hnodupS

theorem wf_recordSale (db : DB) (mid : Nat) (mn c : String) (q : Int) (r : Rat)
    (sb sbn : String) (sAt : Option Int) (now : Int) (h : wf db) :
    wf (recordSale db mid mn c q r sb sbn sAt now).1 := by
  unfold recordSale
  split
  · exact h
  · split
    · exact h
    · split
      · exact h
      · next db1 hs =>
        obtain ⟨hm, rfl⟩ := saveMedicine_ok hs
        exact wf_appendSale (wf_putMedicine h hm) _ rfl

theorem wf_deleteSale (db : DB) (sid : Nat) (h : wf db) :
    wf (deleteSale db sid).1 := by
  unfold deleteSale
  split
  · exact h
  · split
    · split
      · exact h
      · next db1 hs => exact wf_removeSale (wf_saveMedicine h hs) sid
    · exact wf_removeSale h sid

theorem wf_finishEditSale (db : DB) (sale : Sale) (q : Int) (r : Rat)
    (sAt : Option Int) (h : wf db) : wf (finishEditSale db sale q r sAt).1 :=
  wf_putSale h _

theorem wf_editSaleApply (db : DB) (sale : Sale) (mid? : Option Nat) (mn : String)
    (q : Int) (r : Rat) (sAt : Option Int) (h : wf db) :
    wf (editSaleApply db sale mid? mn q r sAt).1 := by
  unfold editSaleApply
  split
  · split
    · split
      · exact h
      · split
        · exact h
        · next db1 hs => exact wf_finishEditSale _ _ _ _ _ (wf_saveMedicine h hs)
    · split
      · split
        · exact h
        · next db1 hs => exact wf_finishEditSale _ _ _ _ _ (wf_saveMedicine h hs)
      · exact wf_finishEditSale _ _ _ _ _ h
  · split
    · split
      · exact h
      · next db1 hs => exact wf_finishEditSale _ _ _ _ _ (wf_saveMedicine h hs)
    · exact wf_finishEditSale _ _ _ _ _ h

theorem wf_editSale (db : DB) (sid : Nat) (mid? : Option Nat) (mn : String)
    (q : Int) (r : Rat) (sAt : Option Int) (h : wf db) :
    wf (editSale db sid mid? mn q r sAt).1 := by
  unfold editSale
  split
  · exact h
  · split
    · split
      · exact h
      · next db1 hs => exact wf_editSaleApply _ _ _ _ _ _ _ (wf_saveMedicine h hs)
    · exact wf_editSaleApply _ _ _ _ _ _ _ h

theorem wf_transferTxn {db db1 : DB} (mid : Nat) (mn fromName toName : String)
    (q : Int) (now : Int) (h : wf db)
    (ht : transferTxn db mid mn fromName toName q now = .ok db1) : wf db1 := by
  unfold transferTxn at ht
  split at ht
  · cases ht
  · split at ht
    · cases ht
    · split at ht
      · cases ht
      · next dbA hs =>
        have hA : wf dbA := wf_saveMedicine h hs
        split at ht
        · split at ht
          · cases ht
          · next dbB hs2 =>
            cases ht
            have hB := wf_saveMedicine hA hs2
            exact hB
        · split at ht
          · cases ht
          · next dbB hc =>
            cases ht
            have hB := wf_createMedicine hA rfl hc
            exact hB

theorem wf_transfer (db : DB) (fc tc : String) (mid? : Option Nat) (mn : String)
    (q : Int) (now : Int) (h : wf db) :
    wf (transfer db fc tc mid? mn q now).1 := by
  unfold transfer
  split
  · exact h
  · split
    · exact h
    · split
      · exact h
      · split
        · next db1 ht => exact wf_transferTxn _ _ _ _ _ _ h ht
        · exact h

theorem wf_applyOp (db : DB) (op : Op) (h : wf db) : wf (applyOp db op) := by
  cases op with
  | record mid mn c q r sb sbn sAt now => exact wf_recordSale db mid mn c q r sb sbn sAt now h
  | edit sid mid? mn q r sAt => exact wf_editSale db sid mid? mn q r sAt h
  | del sid => exact wf_deleteSale db sid h
  | xfer fc tc mid? mn q now => exact wf_transfer db fc tc mid? mn q now h

theorem wf_runOps (db : DB) (ops : List Op) (h : wf db) : wf (runOps db ops) := by
  induction ops generalizing db with
  | nil => exact h
  | cons op rest ih => exact ih (applyOp db op) (wf_applyOp db op h)

/-! ## Evaluation lemmas for the operations -/

theorem medOk_le {m : Medicine} (h : medOk m = true) : 0 ≤ m.quantity := by
  unfold medOk at h
  rw [Bool.and_eq_true] at h
  exact of_decide_eq_true h.1

theorem medOk_set_quantity {m : Medicine} (h : medOk m = true) {q : Int} (hq : 0 ≤ q) :
    medOk { m with quantity := q } = true := by
  unfold medOk at h ⊢
  rw [Bool.and_eq_true] at h ⊢
  exact ⟨decide_eq_true hq, h.2⟩

theorem medOk_neg {m : Medicine} {q : Int} (hq : q < 0) :
    medOk { m with quantity := q } = false := by
  unfold medOk
  have h1 : (decide (0 ≤ q)) = false := decide_eq_false (by omega)
  simp [h1]

theorem saveMedicine_pos (db : DB) {m : Medicine} (hm : medOk m = true) :
    saveMedicine db m = .ok (putMedicine db m) := by
  unfold saveMedicine
  rw [if_pos hm]

theorem saveMedicine_neg (db : DB) {m : Medicine} (hm : medOk m = false) :
    saveMedicine db m = .error .validationFailed := by
  unfold saveMedicine
  rw [if_neg (by simp [hm])]

theorem findMedicine_mem {db : DB} {mid : Nat} {m : Medicine}
    (h : findMedicine db mid = some m) : m ∈ db.medicines ∧ m.id = mid := by
  unfold findMedicine findMedicineIn at h
  refine ⟨List.mem_of_find?_eq_some h, ?_⟩
  have h2 := @List.find?_some Medicine (fun y => y.id = mid) m db.medicines h
  exact of_decide_eq_true h2

theorem findSale_mem {db : DB} {sid : Nat} {s : Sale}
    (h : findSale db sid = some s) : s ∈ db.sales ∧ s.id = sid := by
  unfold findSale at h
  refine ⟨List.mem_of_find?_eq_some h, ?_⟩
  have h2 := @List.find?_some Sale (fun y => y.id = sid) s db.sales h
  exact of_decide_eq_true h2

/-- The non-negativity invariant: any sequence of sale / edit / delete /
transfer requests keeps every stored quantity at or above zero. -/
theorem quantity_nonneg_runOps (db : DB) (h : wf db) (ops : List Op) :
    ∀ m ∈ (runOps db ops).medicines, 0 ≤ m.quantity := by
  intro m hm
  exact medOk_le ((wf_runOps db ops h).1 m hm).1

/-- `recordSale` rejects a decrement exceeding the stock and leaves the store
untouched. -/
theorem recordSale_insufficient (db : DB) (mid : Nat) (mn c : String) (q : Int)
    (r : Rat) (sb sbn : String) (sAt : Option Int) (now : Int) {med : Medicine}
    (hf : findMedicine db mid = some med) (hq : med.quantity < q) :
    recordSale db mid mn c q r sb sbn sAt now = (db, .error .notEnoughStock) := by
  simp only [recordSale, hf]
  rw [if_pos hq]

/-- `editSale` keeping the sale's medicine: when the new quantity exceeds the
restored stock, the save is rejected by the schema validator and the restored
quantity is what persists. -/
theorem editSale_same_overdraw (db : DB) (h : wf db) (sid : Nat) (mid? : Option Nat)
    (mn : String) (q : Int) (r : Rat) (sAt : Option Int) {sale : Sale} {med : Medicine}
    (hs : findSale db sid = some sale)
    (hm : findMedicine db sale.medicine = some med)
    (hmid : mid? = none ∨ mid? = some sale.medicine)
    (hres : 0 ≤ med.quantity + sale.quantity)
    (hover : med.quantity + sale.quantity < q) :
    editSale db sid mid? mn q r sAt =
      (putMedicine db { med with quantity := med.quantity + sale.quantity },
        .error .validationFailed) := by
  have hmemOk : medOk med = true := (h.1 med (findMedicine_mem hm).1).1
  have hid : med.id = sale.medicine := (findMedicine_mem hm).2
  have hok : medOk { med with quantity := med.quantity + sale.quantity } = true :=
    medOk_set_quantity hmemOk hres
  have hfind1 :
      findMedicine (putMedicine db { med with quantity := med.quantity + sale.quantity })
        sale.medicine =
      some { med with quantity := med.quantity + sale.quantity } := by
    have hid2 : sale.medicine =
        (Medicine.id { med with quantity := med.quantity + sale.quantity }) := hid.symm
    rw [hid2, findMedicine_putMedicine_eq]
    have : findMedicine db { med with quantity := med.quantity + sale.quantity }.id =
        some med := by
      show findMedicine db med.id = some med
      rw [hid]
      exact hm
    rw [this]
    rfl
  have hbad : medOk { { med with quantity := med.quantity + sale.quantity } with
      quantity := { med with quantity := med.quantity + sale.quantity }.quantity - q } =
      false := by
    refine medOk_neg ?_
    show med.quantity + sale.quantity - q < 0
    omega
  simp only [editSale, hs, hm, saveMedicine_pos db hok]
  rcases hmid with rfl | rfl
  · simp only [editSaleApply, hfind1, saveMedicine_neg _ hbad]
  · simp only [editSaleApply]
    rw [if_neg (fun hne => hne rfl)]
    simp only [hfind1, saveMedicine_neg _ hbad]

/-- `editSale` switching to a different medicine: the unchecked decrement of
the new medicine is rejected by the schema validator when it exceeds that
medicine's stock, leaving the new medicine's quantity as it was (while the
restore of the old medicine has already persisted). -/
theorem editSale_new_overdraw (db : DB) (h : wf db) (sid : Nat) (newMid : Nat)
    (mn : String) (q : Int) (r : Rat) (sAt : Option Int)
    {sale : Sale} {med newMed : Medicine}
    (hs : findSale db sid = some sale)
    (hm : findMedicine db sale.medicine = some med)
    (hres : 0 ≤ med.quantity + sale.quantity)
    (hne : ¬ newMid = sale.medicine)
    (hn : findMedicine db newMid = some newMed)
    (hover : newMed.quantity < q) :
    editSale db sid (some newMid) mn q r sAt =
      (putMedicine db { med with quantity := med.quantity + sale.quantity },
        .error .validationFailed) := by
  have hmemOk : medOk med = true := (h.1 med (findMedicine_mem hm).1).1
  have hid : med.id = sale.medicine := (findMedicine_mem hm).2
  have hok : medOk { med with quantity := med.quantity + sale.quantity } = true :=
    medOk_set_quantity hmemOk hres
  have hfindNew :
      findMedicine (putMedicine db { med with quantity := med.quantity + sale.quantity })
        newMid = some newMed := by
    rw [findMedicine_putMedicine_ne]
    · exact hn
    · show ¬ newMid = med.id
      rw [hid]
      exact hne
  have hbad : medOk { newMed with quantity := newMed.quantity - q } = false :=
    medOk_neg (by omega)
  simp only [editSale, hs, hm, saveMedicine_pos db hok]
  simp only [editSaleApply]
  rw [if_pos hne]
  simp only [hfindNew, saveMedicine_neg _ hbad]

/-- A transfer whose source stock is below the requested quantity fails inside
the transaction and the store is unchanged. -/
theorem transfer_insufficient (db : DB) (fc tc : String) (mid : Nat) (mn : String)
    (q : Int) (now : Int) {src : Medicine}
    (hf : db.medicines.find?
        (fun m => m.id = mid && m.clinic = normalizeClinic fc) = some src)
    (h1 : ¬ normalizeClinic fc = "") (h2 : ¬ normalizeClinic tc = "")
    (h3 : ¬ mn = "") (h4 : 0 < q)
    (h5 : ¬ normalizeClinic fc = normalizeClinic tc)
    (hq : src.quantity < q) :
    transfer db fc tc (some mid) mn q now = (db, .error .notEnoughQuantity) := by
  have hcond : ¬ ((decide (normalizeClinic fc = "") || decide (normalizeClinic tc = "") ||
      decide (mn = "") || decide (q ≤ 0)) = true) := by
    simp [h1, h2, h3]
    omega
  simp only [transfer]
  rw [if_neg hcond, if_neg h5]
  have htxn : transferTxn db mid mn (normalizeClinic fc) (normalizeClinic tc) q now =
      .error .notEnoughQuantity := by
    simp only [transferTxn, hf]
    rw [if_pos hq]
  rw [htxn]

theorem findMedicine_put_set_quantity {db : DB} {mid : Nat} {med : Medicine}
    (hm : findMedicine db mid = some med) (q : Int) :
    findMedicine (putMedicine db { med with quantity := q }) mid =
      some { med with quantity := q } := by
  have hid : med.id = mid := (findMedicine_mem hm).2
  have hid2 : mid = (Medicine.id { med with quantity := q }) := hid.symm
  rw [hid2, findMedicine_putMedicine_eq]
  have hfind : findMedicine db { med with quantity := q }.id = some med := by
    show findMedicine db med.id = some med
    rw [hid]
    exact hm
  rw [hfind]
  rfl

/-! ## Claim C1 -/

/-- Statement of claim C1 for a given starting store. -/
def C1Prop (db : DB) : Prop :=
  (∀ ops : List Op, ∀ m ∈ (runOps db ops).medicines, 0 ≤ m.quantity) ∧
  (∀ mid mn c q r sb sbn sAt now med, findMedicine db mid = some med →
    med.quantity < q →
    recordSale db mid mn c q r sb sbn sAt now = (db, .error .notEnoughStock)) ∧
  (∀ sid mid? mn q r sAt sale med, findSale db sid = some sale →
    findMedicine db sale.medicine = some med →
    (mid? = none ∨ mid? = some sale.medicine) →
    0 ≤ med.quantity + sale.quantity → med.quantity + sale.quantity < q →
    (editSale db sid mid? mn q r sAt).2 = .error .validationFailed ∧
    quantityOf (editSale db sid mid? mn q r sAt).1 sale.medicine =
      some (med.quantity + sale.quantity)) ∧
  (∀ sid newMid mn q r sAt sale med newMed, findSale db sid = some sale →
    findMedicine db sale.medicine = some med →
    0 ≤ med.quantity + sale.quantity → ¬ newMid = sale.medicine →
    findMedicine db newMid = some newMed → newMed.quantity < q →
    (editSale db sid (some newMid) mn q r sAt).2 = .error .validationFailed ∧
    quantityOf (editSale db sid (some newMid) mn q r sAt).1 newMid =
      some newMed.quantity) ∧
  (∀ fc tc mid mn q now src,
    db.medicines.find? (fun m => m.id = mid && m.clinic = normalizeClinic fc) =
      some src →
    ¬ normalizeClinic fc = "" → ¬ normalizeClinic tc = "" → ¬ mn = "" → 0 < q →
    ¬ normalizeClinic fc = normalizeClinic tc → src.quantity < q →
    transfer db fc tc (some mid) mn q now = (db, .error .notEnoughQuantity))

/-- **C1.** For every sequence of `recordSale`, `editSale`, `deleteSale` and
`transfer` operations on a well-formed store, every medicine's quantity stays
non-negative, and any attempted decrement that would exceed the available
quantity — in `recordSale`, in `editSale` (whether or not the medicine
reference changed, where only the schema's `min: 0` validator guards the
save), and in `transfer` — is rejected with an error and leaves the
decremented medicine's quantity unchanged. -/
theorem spec_C1 (db : DB) (h : wf db) : C1Prop db := by
  refine ⟨quantity_nonneg_runOps db h, ?_, ?_, ?_, ?_⟩
  · intro mid mn c q r sb sbn sAt now med hf hq
    exact recordSale_insufficient db mid mn c q r sb sbn sAt now hf hq
  · intro sid mid? mn q r sAt sale med hs hm hmid hres hover
    have heq := editSale_same_overdraw db h sid mid? mn q r sAt hs hm hmid hres hover
    rw [heq]
    refine ⟨rfl, ?_⟩
    unfold quantityOf
    rw [findMedicine_put_set_quantity hm]
    rfl
  · intro sid newMid mn q r sAt sale med newMed hs hm hres hne hn hover
    have heq := editSale_new_overdraw db h sid newMid mn q r sAt hs hm hres hne hn hover
    rw [heq]
    refine ⟨rfl, ?_⟩
    unfold quantityOf
    have hid : med.id = sale.medicine := (findMedicine_mem hm).2
    have hne2 : ¬ newMid =
        (Medicine.id { med with quantity := med.quantity + sale.quantity }) := by
      show ¬ newMid = med.id
      rw [hid]
      exact hne
    rw [findMedicine_putMedicine_ne _ _ _ hne2, hn]
    rfl
  · intro fc tc mid mn q now src hf h1 h2 h3 h4 h5 hq
    exact transfer_insufficient db fc tc mid mn q now hf h1 h2 h3 h4 h5 hq

/-- Concrete well-formed store used by the witnesses. -/
def mPanadol : Medicine :=
  { id := 1, name := "Panadol", description := "pain relief", quantity := 100,
    purchasePrice := some 5, clinic := "Clinic1" }

def sPanadol : Sale :=
  { id := 2, medicine := 1, medicineName := "Panadol", clinic := "Clinic1",
    quantity := 10, rate := 8, total := 80, soldBy := "w@x", soldByName := "W",
    soldAt := 0 }

def dbW : DB :=
  { medicines := [mPanadol], sales := [sPanadol], transfers := [], nextId := 3 }

/-- Witness: C1 instantiated at the concrete store `dbW`. -/
theorem spec_C1_witness : C1Prop dbW := spec_C1 dbW (by decide)

/-! ## Claim C3 -/

/-- Every `transfer` run either returns the store unchanged or succeeds. -/
theorem transfer_fst_or_ok (db : DB) (fc tc : String) (mid? : Option Nat)
    (mn : String) (q : Int) (now : Int) :
    (transfer db fc tc mid? mn q now).1 = db ∨
      (transfer db fc tc mid? mn q now).2 = .ok () := by
  unfold transfer
  split
  · exact Or.inl rfl
  · split
    · exact Or.inl rfl
    · split
      · exact Or.inl rfl
      · split
        · exact Or.inr rfl
        · exact Or.inl rfl

/-- **C3.** Every failing `transfer` call — invalid input, same clinic after
normalization, missing source medicine, insufficient source stock, or a
validation failure inside the transaction — leaves the store completely
unchanged: the session transaction is aborted, so no quantity change, no
created destination record and no appended `TransferHistory` record
persists. -/
theorem spec_C3 (db : DB) (fc tc : String) (mid? : Option Nat) (mn : String)
    (q : Int) (now : Int) (e : Err)
    (hfail : (transfer db fc tc mid? mn q now).2 = .error e) :
    (transfer db fc tc mid? mn q now).1 = db := by
  rcases transfer_fst_or_ok db fc tc mid? mn q now with h1 | h2
  · exact h1
  · rw [h2] at hfail
    cases hfail

/-- Witness: a same-clinic transfer against `dbW` fails and changes nothing. -/
theorem spec_C3_witness :
    (transfer dbW "Clinic1" "Clinic1 (Bob)" (some 1) "Panadol" 20 0).2 =
        .error .sameClinic ∧
    (transfer dbW "Clinic1" "Clinic1 (Bob)" (some 1) "Panadol" 20 0).1 = dbW :=
  ⟨by decide,
   spec_C3 dbW "Clinic1" "Clinic1 (Bob)" (some 1) "Panadol" 20 0 .sameClinic (by decide)⟩

/-! ## Claim C6 -/

/-- `cs` contains the two-character separator `" ("` somewhere. -/
def hasSep : List Char → Bool
  | [] => false
  | c :: cs => (c = ' ' && cs.head? = some '(') || hasSep cs

theorem beforeParen_no_sep {l : List Char} (h : hasSep l = false) :
    beforeParen l = l := by
  induction l with
  | nil => rfl
  | cons c cs ih =>
    unfold hasSep at h
    rw [Bool.or_eq_false_iff] at h
    unfold beforeParen
    rw [if_neg (by simp [h.1]), ih h.2]

theorem beforeParen_append {l : List Char} (rest : List Char) (h : hasSep l = false) :
    beforeParen (l ++ ' ' :: '(' :: rest) = l := by
  induction l with
  | nil => simp [beforeParen]
  | cons c cs ih =>
    unfold hasSep at h
    rw [Bool.or_eq_false_iff] at h
    have htail := ih h.2
    cases cs with
    | nil =>
      have hcond : (decide (c = ' ') &&
          decide ((List.nil ++ ' ' :: '(' :: rest).head? = some '(')) = false := by
        simp
      simp [beforeParen, hcond, htail]
    | cons d ds =>
      have hcond : (decide (c = ' ') &&
          decide (((d :: ds) ++ ' ' :: '(' :: rest).head? = some '(')) = false := by
        have h1 := h.1
        simp only [List.head?_cons, List.cons_append] at h1 ⊢
        exact h1
      simp only [List.cons_append, beforeParen, hcond, Bool.false_eq_true,
        if_false, List.cons_append] at htail ⊢
      rw [htail]
      have h1 := h.1
      simp only [List.head?_cons] at h1
      simp [List.append_eq, List.cons_append, List.head?_cons, h1]
      intro hc hd2
      simp [hc, hd2] at h1

/-- Counterexample to C6 as stated: the label `"My (Old) Clinic"` carries no
trailing parenthetical worker-list annotation (it is not of the form
`base ++ " (" ++ workers ++ ")"`), yet the normalization used by the transfer
route does not leave it unchanged — it truncates it to `"My"`. -/
theorem spec_C6_cx :
    (∀ base workers : String,
      ¬ ((("My (Old) Clinic" : String)) = base ++ " (" ++ workers ++ ")")) ∧
    ¬ normalizeClinic "My (Old) Clinic" = "My (Old) Clinic" ∧
    normalizeClinic "My (Old) Clinic" = "My" := by
  refine ⟨?_, by decide, by decide⟩
  intro base workers h
  have hR : (base ++ " (" ++ workers ++ ")").data.getLast? = some ')' := by
    simp only [String.data_append]
    exact List.getLast?_concat _
  have hL : (("My (Old) Clinic" : String)).data.getLast? = some 'c' := by decide
  rw [h, hR] at hL
  cases hL

/-- **C6 (amended).** The clinic label used by the transfer route is the input
truncated at the first occurrence of `" ("` (`split(' (')[0]`): a label of the
form `base ++ " (" ++ anything` with no earlier `" ("` in `base` — in
particular a trailing worker-list annotation `"ClinicName (worker1, worker2)"`
— becomes `base`, and a label containing no `" ("` at all is used
unchanged. -/
theorem spec_C6 :
    (∀ s : String, hasSep s.data = false → normalizeClinic s = s) ∧
    (∀ base annot : String, hasSep base.data = false →
      normalizeClinic (base ++ " (" ++ annot) = base) := by
  constructor
  · intro s h
    unfold normalizeClinic
    rw [beforeParen_no_sep h]
  · intro base annot h
    unfold normalizeClinic
    have hdata : (base ++ " (" ++ annot).data =
        base.data ++ ' ' :: '(' :: annot.data := by
      simp only [String.data_append]
      simp
    rw [hdata, beforeParen_append annot.data h]

/-- Witness: the amended normalization at a concrete annotated label and at a
plain label. -/
theorem spec_C6_witness :
    normalizeClinic ("Clinic1" ++ " (" ++ "Alice, Bob)") = "Clinic1" ∧
    normalizeClinic "Clinic2" = "Clinic2" :=
  ⟨spec_C6.2 "Clinic1" "Alice, Bob)" (by decide),
   spec_C6.1 "Clinic2" (by decide)⟩

/-! ## Claim C2 -/

/-- Total stock across the whole medicine store. -/
def sumQty (db : DB) : Int := (db.medicines.map Medicine.quantity).sum

theorem createMedicine_ok {db db1 : DB} {m : Medicine}
    (hc : createMedicine db m = .ok db1) :
    medOk m = true ∧
      db1 = { db with medicines := db.medicines ++ [m], nextId := db.nextId + 1 } := by
  unfold createMedicine at hc
  split at hc
  · cases hc
    constructor
    · assumption
    · rfl
  · cases hc

theorem findSrc_mem {db : DB} {mid : Nat} {fn : String} {src : Medicine}
    (h : db.medicines.find? (fun m => m.id = mid && m.clinic = fn) = some src) :
    src ∈ db.medicines ∧ src.id = mid ∧ src.clinic = fn := by
  refine ⟨List.mem_of_find?_eq_some h, ?_⟩
  have h2 := @List.find?_some Medicine
    (fun m => m.id = mid && m.clinic = fn) src db.medicines h
  rw [Bool.and_eq_true] at h2
  exact ⟨of_decide_eq_true h2.1, of_decide_eq_true h2.2⟩

theorem findSrc_dst {l : List Medicine} {mn tn : String} {dst : Medicine}
    (h : l.find? (fun m => m.name = mn && m.clinic = tn) = some dst) :
    dst ∈ l ∧ dst.name = mn ∧ dst.clinic = tn := by
  refine ⟨List.mem_of_find?_eq_some h, ?_⟩
  have h2 := @List.find?_some Medicine
    (fun m => m.name = mn && m.clinic = tn) dst l h
  rw [Bool.and_eq_true] at h2
  exact ⟨of_decide_eq_true h2.1, of_decide_eq_true h2.2⟩

theorem findMedicine_of_mem {db : DB} {m : Medicine} (hn : wf db)
    (hm : m ∈ db.medicines) {i : Nat} (hi : m.id = i) :
    findMedicine db i = some m := by
  unfold findMedicine findMedicineIn
  rw [← hi]
  exact find?_eq_some_of_mem hn.2.2.1 hm

/-- Elements whose id differs from the replaced one keep their membership. -/
theorem mem_replaceMed_of_mem {l : List Medicine} {m y : Medicine} (hy : y ∈ l)
    (h : ¬ y.id = m.id) : y ∈ replaceMed m l := by
  have h2 := List.mem_map_of_mem (fun x => if x.id = m.id then m else x) hy
  simpa only [if_neg h] using h2

theorem mem_replaceMed_self {l : List Medicine} {m y : Medicine} (hy : y ∈ l)
    (h : y.id = m.id) : m ∈ replaceMed m l := by
  have h2 := List.mem_map_of_mem (fun x => if x.id = m.id then m else x) hy
  simpa only [if_pos h] using h2

/-- **C2.** A successful transfer finds a source medicine with the requested
id in the normalized source clinic, decrements exactly it by `q`, increments
a destination record matched by `(medicineName, toClinic)` by `q` — or
creates one with quantity `q` copying name, description and purchase price
from the source — leaves the total stock across the store unchanged, and
appends exactly one `TransferHistory` record carrying the source name, the
quantity and the two normalized clinic labels. -/
theorem spec_C2 (db db1 : DB) (fc tc : String) (mid : Nat) (mn : String)
    (q : Int) (now : Int) (h : wf db)
    (ht : transfer db fc tc (some mid) mn q now = (db1, .ok ())) :
    ∃ src ∈ db.medicines,
      src.id = mid ∧ src.clinic = normalizeClinic fc ∧
      quantityOf db mid = some src.quantity ∧
      quantityOf db1 mid = some (src.quantity - q) ∧
      ((∃ dst ∈ db.medicines, dst.name = mn ∧ dst.clinic = normalizeClinic tc ∧
          { dst with quantity := dst.quantity + q } ∈ db1.medicines) ∨
        ((∀ d ∈ db.medicines, ¬ (d.name = mn ∧ d.clinic = normalizeClinic tc)) ∧
          ∃ newRec ∈ db1.medicines, newRec.name = src.name ∧
            newRec.clinic = normalizeClinic tc ∧ newRec.quantity = q ∧
            newRec.description = src.description ∧
            newRec.purchasePrice = src.purchasePrice)) ∧
      sumQty db1 = sumQty db ∧
      db1.transfers = db.transfers ++
        [{ medicineName := src.name, quantity := q,
           fromClinic := normalizeClinic fc, toClinic := normalizeClinic tc,
           date := now }] := by
  simp only [transfer] at ht
  split at ht
  · have h2 := congrArg Prod.snd ht
    simp at h2
  · split at ht
    · have h2 := congrArg Prod.snd ht
      simp at h2
    · next hnotsame =>
      split at ht
      case _ dbO htxn =>
        have hdb1 : dbO = db1 := congrArg Prod.fst ht
        subst hdb1
        clear ht
        unfold transferTxn at htxn
        split at htxn
        · cases htxn
        case _ src hfind =>
          split at htxn
          · cases htxn
          case _ hqle =>
            obtain ⟨hmemS, hidS, hclinS⟩ := findSrc_mem hfind
            refine ⟨src, hmemS, hidS, hclinS, ?_⟩
            have hfindS : findMedicine db mid = some src := findMedicine_of_mem h hmemS hidS
            have hq0 : quantityOf db mid = some src.quantity := by
              unfold quantityOf
              rw [hfindS]
              rfl
            split at htxn
            · cases htxn
            case _ dbA hsave =>
              obtain ⟨hokS, hdbA⟩ := saveMedicine_ok hsave
              subst hdbA
              have hwfA : wf (putMedicine db { src with quantity := src.quantity - q }) :=
                wf_putMedicine h hokS
              have hfindA : findMedicine (putMedicine db { src with quantity := src.quantity - q })
                  mid = some { src with quantity := src.quantity - q } := by
                have := findMedicine_put_set_quantity hfindS (src.quantity - q)
                exact this
              have hsumA : sumQty (putMedicine db { src with quantity := src.quantity - q }) =
                  sumQty db - src.quantity + (src.quantity - q) := by
                unfold sumQty
                rw [putMedicine_medicines]
                exact sum_replaceMed h.2.2.1 hmemS rfl
              split at htxn
              case _ toMed hdst =>
                split at htxn
                · cases htxn
                case _ dbB hsave2 =>
                  obtain ⟨hokD, hdbB⟩ := saveMedicine_ok hsave2
                  subst hdbB
                  cases htxn
                  obtain ⟨hmemD1, hnameD, hclinD⟩ := findSrc_dst hdst
                  have hDneS : ¬ toMed.id = mid := by
                    intro hc
                    have hsame2 := eq_of_id_eq hwfA.2.2.1 hmemD1
                      (by
                        have := findMedicine_mem hfindA
                        exact this.1)
                      (by
                        rw [hc]
                        have := findMedicine_mem hfindA
                        exact this.2.symm)
                    have : toMed.clinic = normalizeClinic fc := by
                      rw [hsame2]
                      exact hclinS
                    rw [hclinD] at this
                    exact hnotsame this.symm
                  have hmemD : toMed ∈ db.medicines := by
                    rcases mem_replaceMed hmemD1 with h1 | h1
                    · exact h1
                    · exfalso
                      apply hDneS
                      rw [h1]
                      exact hidS
                  refine ⟨hq0, ?_, Or.inl ⟨toMed, hmemD, hnameD, hclinD, ?_⟩, ?_, ?_⟩
                  · unfold quantityOf
                    show (findMedicine (putMedicine (putMedicine db _) _) mid).map _ = _
                    rw [findMedicine_putMedicine_ne _ _ _ (by
                      intro hc
                      exact hDneS hc.symm), hfindA]
                    rfl
                  · show { toMed with quantity := toMed.quantity + q } ∈
                      (putMedicine (putMedicine db _) _).medicines
                    rw [putMedicine_medicines]
                    exact mem_replaceMed_self hmemD1 rfl
                  · show sumQty (putMedicine (putMedicine db _) _) = sumQty db
                    unfold sumQty
                    rw [putMedicine_medicines]
                    have h2 := sum_replaceMed hwfA.2.2.1 hmemD1
                      (show (Medicine.id { toMed with quantity := toMed.quantity + q }) =
                        toMed.id from rfl)
                    rw [h2]
                    unfold sumQty at hsumA
                    rw [hsumA]
                    have h3 : (Medicine.quantity { toMed with quantity := toMed.quantity + q }) =
                        toMed.quantity + q := rfl
                    rw [h3]
                    ring
                  · rfl
              case _ hdst =>
                split at htxn
                · cases htxn
                case _ dbB hc =>
                  obtain ⟨hokN, hdbB⟩ := createMedicine_ok hc
                  subst hdbB
                  cases htxn
                  have hnone : ∀ d ∈ db.medicines,
                      ¬ (d.name = mn ∧ d.clinic = normalizeClinic tc) := by
                    intro d hd hcontra
                    have hall := List.find?_eq_none.mp hdst
                    by_cases hdid : d.id = mid
                    · have hdsrc : d = src := eq_of_id_eq h.2.2.1 hd hmemS (hdid.trans hidS.symm)
                      rw [hdsrc] at hcontra
                      rw [hclinS] at hcontra
                      exact hnotsame hcontra.2
                    · have hdin : d ∈ (putMedicine db { src with quantity := src.quantity - q }).medicines := by
                        rw [putMedicine_medicines]
                        refine mem_replaceMed_of_mem hd ?_
                        show ¬ d.id = src.id
                        rw [hidS]
                        exact hdid
                      have h5 := hall d hdin
                      simp only [Bool.and_eq_true, decide_eq_true_eq] at h5
                      exact h5 hcontra
                  refine ⟨hq0, ?_, Or.inr ⟨hnone, ?_⟩, ?_, ?_⟩
                  · unfold quantityOf findMedicine findMedicineIn
                    dsimp only
                    have hfindA2 : ((putMedicine db { src with quantity := src.quantity - q }).medicines).find?
                        (fun m => m.id = mid) = some { src with quantity := src.quantity - q } :=
                      hfindA
                    rw [List.find?_append, hfindA2]
                    rfl
                  · refine ⟨⟨(putMedicine db { src with quantity := src.quantity - q }).nextId,
                      src.name, src.description, q, src.purchasePrice,
                      normalizeClinic tc⟩, ?_, rfl, rfl, rfl, rfl, rfl⟩
                    exact List.mem_append_right _ (List.mem_singleton.mpr rfl)
                  · unfold sumQty
                    dsimp only
                    rw [List.map_append, List.sum_append]
                    unfold sumQty at hsumA
                    rw [hsumA]
                    have h3 : (([(⟨(putMedicine db { src with quantity := src.quantity - q }).nextId,
                        src.name, src.description, q, src.purchasePrice,
                        normalizeClinic tc⟩ : Medicine)]).map Medicine.quantity).sum = q := by
                      simp
                    rw [h3]
                    ring
                  · rfl
      · have h2 := congrArg Prod.snd ht
        simp at h2

/-- The store produced by the witness transfer of 20 Panadol from Clinic1 to
Clinic2 against `dbW`. -/
def dbWxfer : DB :=
  { medicines :=
      [{ id := 1, name := "Panadol", description := "pain relief", quantity := 80,
         purchasePrice := some 5, clinic := "Clinic1" },
       { id := 3, name := "Panadol", description := "pain relief", quantity := 20,
         purchasePrice := some 5, clinic := "Clinic2" }],
    sales := [sPanadol],
    transfers := [(⟨"Panadol", 20, "Clinic1", "Clinic2", 0⟩ : TransferRec)],
    nextId := 4 }

/-- Witness: C2 at the concrete transfer of spec Scenario C. -/
theorem spec_C2_witness :
    ∃ src ∈ dbW.medicines,
      src.id = 1 ∧ src.clinic = normalizeClinic "Clinic1 (Alice)" ∧
      quantityOf dbW 1 = some src.quantity ∧
      quantityOf dbWxfer 1 = some (src.quantity - 20) ∧
      ((∃ dst ∈ dbW.medicines, dst.name = "Panadol" ∧
          dst.clinic = normalizeClinic "Clinic2" ∧
          ({ dst with quantity := dst.quantity + 20 } : Medicine) ∈ dbWxfer.medicines) ∨
        ((∀ d ∈ dbW.medicines,
            ¬ (d.name = "Panadol" ∧ d.clinic = normalizeClinic "Clinic2")) ∧
          ∃ newRec ∈ dbWxfer.medicines, newRec.name = src.name ∧
            newRec.clinic = normalizeClinic "Clinic2" ∧ newRec.quantity = 20 ∧
            newRec.description = src.description ∧
            newRec.purchasePrice = src.purchasePrice)) ∧
      sumQty dbWxfer = sumQty dbW ∧
      dbWxfer.transfers = dbW.transfers ++
        [{ medicineName := src.name, quantity := 20,
           fromClinic := normalizeClinic "Clinic1 (Alice)",
           toClinic := normalizeClinic "Clinic2", date := 0 }] :=
  spec_C2 dbW dbWxfer "Clinic1 (Alice)" "Clinic2" 1 "Panadol" 20 0
    (by decide) (by decide)

/-! ## Claim C7 -/

theorem findSale_fresh {db : DB} (h : wf db) (s : Sale) (hid : s.id = db.nextId) :
    (db.sales ++ [s]).find? (fun y => y.id = s.id) = some s := by
  have h1 : db.sales.find? (fun y => y.id = s.id) = none := by
    rw [List.find?_eq_none]
    intro x hx
    simp only [decide_eq_true_eq]
    intro hc
    have h2 := h.2.1 x hx
    omega
  rw [List.find?_append, h1]
  simp [List.find?_cons]

theorem findSale_removeSale (db : DB) (sid : Nat) :
    findSale (removeSale db sid) sid = none := by
  unfold findSale removeSale
  rw [List.find?_eq_none]
  intro x hx
  have h2 := List.mem_filter.mp hx
  simpa using h2.2

theorem findMedicine_filter_out (db : DB) (mid : Nat) :
    (db.medicines.filter (fun m => ¬ m.id = mid)).find? (fun m => m.id = mid) = none := by
  rw [List.find?_eq_none]
  intro x hx
  have h2 := List.mem_filter.mp hx
  simpa using h2.2

theorem findMedicine_removeSale (db : DB) (sid mid : Nat) :
    findMedicine (removeSale db sid) mid = findMedicine db mid := rfl

/-- `deleteSale` when the referenced medicine exists: restore, then remove. -/
theorem deleteSale_found {db : DB} {sid : Nat} {sale : Sale} {med : Medicine}
    (hS : findSale db sid = some sale)
    (hm : findMedicine db sale.medicine = some med)
    (hok : medOk { med with quantity := med.quantity + sale.quantity } = true) :
    deleteSale db sid =
      (removeSale (putMedicine db { med with quantity := med.quantity + sale.quantity }) sid,
        .ok ()) := by
  simp only [deleteSale, hS, hm, saveMedicine_pos db hok]

/-- `deleteSale` when the referenced medicine is gone: silent no-op restore. -/
theorem deleteSale_missing {db : DB} {sid : Nat} {sale : Sale}
    (hS : findSale db sid = some sale)
    (hm : findMedicine db sale.medicine = none) :
    deleteSale db sid = (removeSale db sid, .ok ()) := by
  simp only [deleteSale, hS, hm]

/-- **C7.** Recording a sale against a medicine and then deleting that sale,
with no intervening operation on the medicine, restores the medicine's
quantity to its pre-sale value; and if the medicine is deleted between the
sale and the `deleteSale`, the stock restoration is a silent no-op (the
medicine store is untouched) while the sale is still deleted without
error. -/
theorem spec_C7 (db : DB) (h : wf db) (mid : Nat) (mn c : String) (q : Int)
    (r : Rat) (sb sbn : String) (sAt : Option Int) (now : Int) (med : Medicine)
    (hf : findMedicine db mid = some med) (hq : ¬ med.quantity < q)
    (db1 : DB) (sale : Sale)
    (hrec : recordSale db mid mn c q r sb sbn sAt now = (db1, .ok sale)) :
    sale.medicine = mid ∧ sale.quantity = q ∧
    ((deleteSale db1 sale.id).2 = .ok () ∧
      quantityOf (deleteSale db1 sale.id).1 mid = quantityOf db mid ∧
      findSale (deleteSale db1 sale.id).1 sale.id = none) ∧
    ((deleteMedicine db1 mid).2 = .ok () ∧
      (deleteSale (deleteMedicine db1 mid).1 sale.id).2 = .ok () ∧
      findSale (deleteSale (deleteMedicine db1 mid).1 sale.id).1 sale.id = none ∧
      (deleteSale (deleteMedicine db1 mid).1 sale.id).1.medicines =
        (deleteMedicine db1 mid).1.medicines) := by
  have hmemOk : medOk med = true := (h.1 med (findMedicine_mem hf).1).1
  have hok : medOk { med with quantity := med.quantity - q } = true :=
    medOk_set_quantity hmemOk (by omega)
  have hrec2 : recordSale db mid mn c q r sb sbn sAt now =
      ({ putMedicine db { med with quantity := med.quantity - q } with
          sales := db.sales ++
            [⟨db.nextId, mid, mn, c, q, r, r * (q : Rat), sb, sbn, sAt.getD now⟩],
          nextId := db.nextId + 1 },
        .ok ⟨db.nextId, mid, mn, c, q, r, r * (q : Rat), sb, sbn, sAt.getD now⟩) := by
    simp only [recordSale, hf]
    rw [if_neg hq, saveMedicine_pos db hok]
    rfl
  rw [hrec] at hrec2
  have hdb : db1 = { putMedicine db { med with quantity := med.quantity - q } with
      sales := db.sales ++
        [⟨db.nextId, mid, mn, c, q, r, r * (q : Rat), sb, sbn, sAt.getD now⟩],
      nextId := db.nextId + 1 } := congrArg Prod.fst hrec2
  have hsale : sale = ⟨db.nextId, mid, mn, c, q, r, r * (q : Rat), sb, sbn,
      sAt.getD now⟩ :=
    Except.ok.inj (congrArg Prod.snd hrec2)
  have hsmed : sale.medicine = mid := by rw [hsale]
  have hsq : sale.quantity = q := by rw [hsale]
  have hS : findSale db1 sale.id = some sale := by
    rw [hdb, hsale]
    exact findSale_fresh h _ rfl
  have hm1 : findMedicine db1 mid =
      some { med with quantity := med.quantity - q } := by
    rw [hdb]
    exact findMedicine_put_set_quantity hf _
  have hm1m : findMedicine db1 sale.medicine =
      some { med with quantity := med.quantity - q } := by
    rw [hsmed]
    exact hm1
  have hok2 : medOk { { med with quantity := med.quantity - q } with
      quantity := (Medicine.quantity { med with quantity := med.quantity - q }) +
        sale.quantity } = true := by
    have h9 : (0 : Int) ≤ (Medicine.quantity { med with quantity := med.quantity - q }) +
        sale.quantity := by
      rw [hsq]
      show (0 : Int) ≤ med.quantity - q + q
      have h10 := medOk_le hmemOk
      omega
    exact medOk_set_quantity hmemOk h9
  have hdel := deleteSale_found hS hm1m hok2
  have hput := findMedicine_put_set_quantity hm1
    ((Medicine.quantity { med with quantity := med.quantity - q }) + sale.quantity)
  refine ⟨hsmed, hsq, ⟨?_, ?_, ?_⟩, ?_⟩
  · rw [hdel]
  · rw [hdel]
    unfold quantityOf
    rw [findMedicine_removeSale, hput, hf]
    simp only [Option.map_some']
    rw [hsq]
    show some (med.quantity - q + q) = some med.quantity
    congr 1
    omega
  · rw [hdel]
    exact findSale_removeSale _ _
  · have hdelM : deleteMedicine db1 mid =
        ({ db1 with medicines := db1.medicines.filter (fun m => ¬ m.id = mid) },
          .ok ()) := by
      simp only [deleteMedicine, hm1]
    have hS2 : findSale
        ({ db1 with medicines := db1.medicines.filter (fun m => ¬ m.id = mid) })
        sale.id = some sale := hS
    have hm2 : findMedicine
        ({ db1 with medicines := db1.medicines.filter (fun m => ¬ m.id = mid) })
        sale.medicine = none := by
      rw [hsmed]
      exact findMedicine_filter_out db1 mid
    have hdel2 := deleteSale_missing hS2 hm2
    refine ⟨?_, ?_, ?_, ?_⟩
    · rw [hdelM]
    · rw [hdelM, hdel2]
    · rw [hdelM, hdel2]
      exact findSale_removeSale _ _
    · rw [hdelM, hdel2]
      exact removeSale_medicines _ _

/-- Witness: C7 at the concrete sale of spec Scenarios A and B. -/
theorem spec_C7_witness :
    ∃ db1 sale,
      recordSale dbW 1 "Panadol" "Clinic1" 10 8 "w@x" "W" none 0 = (db1, .ok sale) ∧
      (sale.medicine = 1 ∧ sale.quantity = 10 ∧
        ((deleteSale db1 sale.id).2 = .ok () ∧
          quantityOf (deleteSale db1 sale.id).1 1 = quantityOf dbW 1 ∧
          findSale (deleteSale db1 sale.id).1 sale.id = none) ∧
        ((deleteMedicine db1 1).2 = .ok () ∧
          (deleteSale (deleteMedicine db1 1).1 sale.id).2 = .ok () ∧
          findSale (deleteSale (deleteMedicine db1 1).1 sale.id).1 sale.id = none ∧
          (deleteSale (deleteMedicine db1 1).1 sale.id).1.medicines =
            (deleteMedicine db1 1).1.medicines)) :=
  ⟨(recordSale dbW 1 "Panadol" "Clinic1" 10 8 "w@x" "W" none 0).1,
   ⟨3, 1, "Panadol", "Clinic1", 10, 8, 80, "w@x", "W", 0⟩,
   by with_unfolding_all decide,
   spec_C7 dbW (by decide) 1 "Panadol" "Clinic1" 10 8 "w@x" "W" none 0 mPanadol
     (by decide) (by decide) _ _ (by with_unfolding_all decide)⟩

/-! ## Claims C8 and C9 -/

theorem findMedicine_putSale (db : DB) (s : Sale) (mid : Nat) :
    findMedicine (putSale db s) mid = findMedicine db mid := rfl

theorem findSale_putSale_upd {db : DB} {sid : Nat} {sale upd : Sale}
    (hs : findSale db sid = some sale) (hid : upd.id = sale.id) :
    findSale (putSale db upd) sid = some upd := by
  have h2 : sale.id = sid := (findSale_mem hs).2
  have h3 : sid = upd.id := by rw [hid, h2]
  unfold findSale at hs
  unfold findSale
  rw [putSale_sales]
  rw [h3] at hs ⊢
  rw [find?_replaceSale_eq db.sales upd, hs]
  rfl

/-- `editSaleApply` when the medicine reference is unchanged (absent or equal
to the sale's current reference): decrement the sale's own medicine, then
update the sale. -/
theorem editSaleApply_same {db : DB} {sale : Sale} {mid? : Option Nat}
    (mn : String) (q : Int) (r : Rat) (sAt : Option Int) {med : Medicine}
    (hmid : mid? = none ∨ mid? = some sale.medicine)
    (hm : findMedicine db sale.medicine = some med)
    (hok : medOk { med with quantity := med.quantity - q } = true) :
    editSaleApply db sale mid? mn q r sAt =
      finishEditSale (putMedicine db { med with quantity := med.quantity - q })
        sale q r sAt := by
  rcases hmid with rfl | rfl
  · simp only [editSaleApply, hm, saveMedicine_pos db hok]
  · simp only [editSaleApply]
    rw [if_neg (fun hne => hne rfl)]
    simp only [hm, saveMedicine_pos db hok]

/-- **C8.** `editSale` on an existing sale with the same medicine reference
and the same quantity but a new rate succeeds, leaves the referenced
medicine's quantity unchanged, and stores `total = quantity * newRate` on the
updated sale. -/
theorem spec_C8 (db : DB) (h : wf db) (sid : Nat) (mid? : Option Nat)
    (mn : String) (r : Rat) (sAt : Option Int) (sale : Sale) (med : Medicine)
    (hs : findSale db sid = some sale)
    (hm : findMedicine db sale.medicine = some med)
    (hmid : mid? = none ∨ mid? = some sale.medicine)
    (hsq : 0 ≤ sale.quantity)
    (db1 : DB) (sale1 : Sale)
    (hedit : editSale db sid mid? mn sale.quantity r sAt = (db1, .ok sale1)) :
    quantityOf db1 sale.medicine = some med.quantity ∧
    findSale db1 sid = some sale1 ∧
    sale1.quantity = sale.quantity ∧ sale1.rate = r ∧
    sale1.total = r * ((sale.quantity : Int) : Rat) := by
  have hmemOk : medOk med = true := (h.1 med (findMedicine_mem hm).1).1
  have hq0 := medOk_le hmemOk
  have hok1 : medOk { med with quantity := med.quantity + sale.quantity } = true :=
    medOk_set_quantity hmemOk (by omega)
  have hfind1 : findMedicine
      (putMedicine db { med with quantity := med.quantity + sale.quantity })
      sale.medicine =
      some { med with quantity := med.quantity + sale.quantity } :=
    findMedicine_put_set_quantity hm _
  have hok2 : medOk { { med with quantity := med.quantity + sale.quantity } with
      quantity := (Medicine.quantity { med with quantity := med.quantity + sale.quantity }) -
        sale.quantity } = true := by
    refine medOk_set_quantity hmemOk ?_
    show (0 : Int) ≤ med.quantity + sale.quantity - sale.quantity
    omega
  have happly := editSaleApply_same mn sale.quantity r sAt hmid hfind1 hok2
  have hedit2 : editSale db sid mid? mn sale.quantity r sAt =
      (putSale
        (putMedicine (putMedicine db { med with quantity := med.quantity + sale.quantity })
          { { med with quantity := med.quantity + sale.quantity } with
            quantity := (Medicine.quantity { med with quantity := med.quantity + sale.quantity }) -
              sale.quantity })
        ⟨sale.id, sale.medicine, sale.medicineName, sale.clinic, sale.quantity, r,
          r * ((sale.quantity : Int) : Rat), sale.soldBy, sale.soldByName,
          sAt.getD sale.soldAt⟩,
      .ok ⟨sale.id, sale.medicine, sale.medicineName, sale.clinic, sale.quantity, r,
          r * ((sale.quantity : Int) : Rat), sale.soldBy, sale.soldByName,
          sAt.getD sale.soldAt⟩) := by
    simp only [editSale, hs, hm, saveMedicine_pos db hok1]
    rw [happly]
    rfl
  rw [hedit] at hedit2
  have hdb1 : db1 =
      putSale
        (putMedicine (putMedicine db { med with quantity := med.quantity + sale.quantity })
          { { med with quantity := med.quantity + sale.quantity } with
            quantity := (Medicine.quantity { med with quantity := med.quantity + sale.quantity }) -
              sale.quantity })
        ⟨sale.id, sale.medicine, sale.medicineName, sale.clinic, sale.quantity, r,
          r * ((sale.quantity : Int) : Rat), sale.soldBy, sale.soldByName,
          sAt.getD sale.soldAt⟩ :=
    congrArg Prod.fst hedit2
  have hsale1 : sale1 = ⟨sale.id, sale.medicine, sale.medicineName, sale.clinic,
      sale.quantity, r, r * ((sale.quantity : Int) : Rat), sale.soldBy,
      sale.soldByName, sAt.getD sale.soldAt⟩ :=
    Except.ok.inj (congrArg Prod.snd hedit2)
  refine ⟨?_, ?_, ?_, ?_, ?_⟩
  · rw [hdb1]
    unfold quantityOf
    rw [findMedicine_putSale, findMedicine_put_set_quantity hfind1]
    simp only [Option.map_some']
    show some (med.quantity + sale.quantity - sale.quantity) = some med.quantity
    congr 1
    omega
  · rw [hdb1, hsale1]
    have hsX : findSale
        (putMedicine (putMedicine db { med with quantity := med.quantity + sale.quantity })
          { { med with quantity := med.quantity + sale.quantity } with
            quantity := (Medicine.quantity { med with quantity := med.quantity + sale.quantity }) -
              sale.quantity }) sid = some sale := hs
    exact findSale_putSale_upd hsX rfl
  · rw [hsale1]
  · rw [hsale1]
  · rw [hsale1]

/-- Witness: C8 at the concrete sale stored in `dbW`, changing only the
rate from 8 to 9. -/
theorem spec_C8_witness :
    quantityOf (editSale dbW 2 none "" 10 9 none).1 1 = some 100 ∧
    findSale (editSale dbW 2 none "" 10 9 none).1 2 =
      some ((editSale dbW 2 none "" 10 9 none).2.toOption.getD sPanadol) ∧
    ((editSale dbW 2 none "" 10 9 none).2.toOption.getD sPanadol).quantity = 10 ∧
    ((editSale dbW 2 none "" 10 9 none).2.toOption.getD sPanadol).rate = 9 ∧
    ((editSale dbW 2 none "" 10 9 none).2.toOption.getD sPanadol).total =
      9 * ((10 : Int) : Rat) := by
  have h1 := spec_C8 dbW (by decide) 2 none "" 9 none sPanadol mPanadol
    (by decide) (by decide) (Or.inl rfl) (by decide)
    (editSale dbW 2 none "" 10 9 none).1
    ((editSale dbW 2 none "" 10 9 none).2.toOption.getD sPanadol)
    (by with_unfolding_all decide)
  exact h1

/-- **C9.** `editSale` with a `medicineId` different from the sale's current
reference, where no medicine with that id exists, answers
`'New medicine not found'` but is not atomic: the old medicine's quantity has
already been increased by the sale's old quantity and that increase persists,
while the sale record itself is left unmodified. -/
theorem spec_C9 (db : DB) (h : wf db) (sid newMid : Nat) (mn : String)
    (q : Int) (r : Rat) (sAt : Option Int) (sale : Sale) (med : Medicine)
    (hs : findSale db sid = some sale)
    (hm : findMedicine db sale.medicine = some med)
    (hsq : 0 ≤ sale.quantity)
    (hne : ¬ newMid = sale.medicine)
    (hnf : findMedicine db newMid = none) :
    editSale db sid (some newMid) mn q r sAt =
      (putMedicine db { med with quantity := med.quantity + sale.quantity },
        .error .newMedicineNotFound) ∧
    quantityOf (editSale db sid (some newMid) mn q r sAt).1 sale.medicine =
      some (med.quantity + sale.quantity) ∧
    findSale (editSale db sid (some newMid) mn q r sAt).1 sid = some sale := by
  have hmemOk : medOk med = true := (h.1 med (findMedicine_mem hm).1).1
  have hq0 := medOk_le hmemOk
  have hok1 : medOk { med with quantity := med.quantity + sale.quantity } = true :=
    medOk_set_quantity hmemOk (by omega)
  have hid : med.id = sale.medicine := (findMedicine_mem hm).2
  have hnf1 : findMedicine
      (putMedicine db { med with quantity := med.quantity + sale.quantity })
      newMid = none := by
    rw [findMedicine_putMedicine_ne]
    · exact hnf
    · show ¬ newMid = med.id
      rw [hid]
      exact hne
  have hedit : editSale db sid (some newMid) mn q r sAt =
      (putMedicine db { med with quantity := med.quantity + sale.quantity },
        .error .newMedicineNotFound) := by
    simp only [editSale, hs, hm, saveMedicine_pos db hok1]
    simp only [editSaleApply]
    rw [if_pos hne]
    simp only [hnf1]
  refine ⟨hedit, ?_, ?_⟩
  · rw [hedit]
    unfold quantityOf
    rw [findMedicine_put_set_quantity hm]
    rfl
  · rw [hedit]
    exact hs

/-- Witness: C9 against `dbW` with the missing medicine id 99. -/
theorem spec_C9_witness :
    editSale dbW 2 (some 99) "X" 4 7 none =
      (putMedicine dbW { mPanadol with quantity := mPanadol.quantity + sPanadol.quantity },
        .error .newMedicineNotFound) ∧
    quantityOf (editSale dbW 2 (some 99) "X" 4 7 none).1 sPanadol.medicine =
      some (mPanadol.quantity + sPanadol.quantity) ∧
    findSale (editSale dbW 2 (some 99) "X" 4 7 none).1 2 = some sPanadol :=
  spec_C9 dbW (by decide) 2 99 "X" 4 7 none sPanadol mPanadol
    (by decide) (by decide) (by decide) (by decide) (by decide)

/-! ## Claim C10 -/

/-- Counterexample to C10 as stated: with quantity −5 and rate 0 the sale is
recorded and stock increases by 5, but the stored total is 0, not negative. -/
theorem spec_C10_cx :
    ∃ sale : Sale,
      (recordSale dbW 1 "Panadol" "Clinic1" (-5) 0 "w@x" "W" none 0).2 = .ok sale ∧
      sale.quantity = -5 ∧ sale.total = 0 ∧ ¬ sale.total < 0 ∧
      quantityOf (recordSale dbW 1 "Panadol" "Clinic1" (-5) 0 "w@x" "W" none 0).1 1 =
        some 105 := by
  refine ⟨⟨3, 1, "Panadol", "Clinic1", -5, 0, 0, "w@x", "W", 0⟩, ?_, rfl, rfl,
    by decide, ?_⟩
  · with_unfolding_all decide
  · with_unfolding_all decide

/-- **C10 (amended).** `recordSale` never rejects a non-positive quantity: it
fails with `'Not enough stock'` exactly when `medicine.quantity < quantity`;
with quantity 0 the sale is recorded with no stock change, and with a
negative quantity the sale is recorded, the stock increases by `|quantity|`,
and the stored total is `quantity * rate` — negative whenever the rate is
positive (for rate 0 it is 0). -/
theorem spec_C10 (db : DB) (h : wf db) (mid : Nat) (mn c : String) (r : Rat)
    (sb sbn : String) (sAt : Option Int) (now : Int) (med : Medicine)
    (hf : findMedicine db mid = some med) :
    (∀ q : Int, q ≤ 0 → ¬ med.quantity < q) ∧
    (∀ q : Int,
      (recordSale db mid mn c q r sb sbn sAt now).2 = .error .notEnoughStock ↔
        med.quantity < q) ∧
    (∀ q : Int, ¬ med.quantity < q →
      ∃ db1 sale, recordSale db mid mn c q r sb sbn sAt now = (db1, .ok sale) ∧
        sale.quantity = q ∧ sale.total = r * ((q : Int) : Rat) ∧
        quantityOf db1 mid = some (med.quantity - q) ∧
        (q = 0 → quantityOf db1 mid = some med.quantity) ∧
        (q < 0 → quantityOf db1 mid = some (med.quantity + (-q)) ∧
          (0 < r → sale.total < 0))) := by
  have hmemOk : medOk med = true := (h.1 med (findMedicine_mem hf).1).1
  have hq0 := medOk_le hmemOk
  have hsucc : ∀ q : Int, ¬ med.quantity < q →
      recordSale db mid mn c q r sb sbn sAt now =
      ({ putMedicine db { med with quantity := med.quantity - q } with
          sales := db.sales ++
            [⟨db.nextId, mid, mn, c, q, r, r * (q : Rat), sb, sbn, sAt.getD now⟩],
          nextId := db.nextId + 1 },
        .ok ⟨db.nextId, mid, mn, c, q, r, r * (q : Rat), sb, sbn, sAt.getD now⟩) := by
    intro q hq
    have hok : medOk { med with quantity := med.quantity - q } = true :=
      medOk_set_quantity hmemOk (by omega)
    simp only [recordSale, hf]
    rw [if_neg hq, saveMedicine_pos db hok]
    rfl
  refine ⟨fun q hq => by omega, fun q => ⟨?_, ?_⟩, ?_⟩
  · intro herr
    by_cases hlt : med.quantity < q
    · exact hlt
    · rw [hsucc q hlt] at herr
      cases herr
  · intro hlt
    rw [recordSale_insufficient db mid mn c q r sb sbn sAt now hf hlt]
  · intro q hq
    refine ⟨_, _, hsucc q hq, rfl, rfl, ?_, ?_, ?_⟩
    · unfold quantityOf
      rw [show findMedicine
          ({ putMedicine db { med with quantity := med.quantity - q } with
            sales := db.sales ++
              [⟨db.nextId, mid, mn, c, q, r, r * (q : Rat), sb, sbn, sAt.getD now⟩],
            nextId := db.nextId + 1 }) mid =
          findMedicine (putMedicine db { med with quantity := med.quantity - q }) mid
        from rfl]
      rw [findMedicine_put_set_quantity hf]
      rfl
    · intro hq0'
      subst hq0'
      unfold quantityOf
      rw [show findMedicine
          ({ putMedicine db { med with quantity := med.quantity - 0 } with
            sales := db.sales ++
              [⟨db.nextId, mid, mn, c, 0, r, r * ((0 : Int) : Rat), sb, sbn, sAt.getD now⟩],
            nextId := db.nextId + 1 }) mid =
          findMedicine (putMedicine db { med with quantity := med.quantity - 0 }) mid
        from rfl]
      rw [findMedicine_put_set_quantity hf]
      show some (med.quantity - 0) = some med.quantity
      congr 1
      omega
    · intro hneg
      constructor
      · unfold quantityOf
        rw [show findMedicine
            ({ putMedicine db { med with quantity := med.quantity - q } with
              sales := db.sales ++
                [⟨db.nextId, mid, mn, c, q, r, r * (q : Rat), sb, sbn, sAt.getD now⟩],
              nextId := db.nextId + 1 }) mid =
            findMedicine (putMedicine db { med with quantity := med.quantity - q }) mid
          from rfl]
        rw [findMedicine_put_set_quantity hf]
        show some (med.quantity - q) = some (med.quantity + (-q))
        congr 1
      · intro hr
        show r * ((q : Int) : Rat) < 0
        refine mul_neg_of_pos_of_neg hr ?_
        exact_mod_cast hneg

/-- Witness: C10 at the stocked medicine of `dbW`. -/
theorem spec_C10_witness :
    (∀ q : Int, q ≤ 0 → ¬ mPanadol.quantity < q) ∧
    (∀ q : Int,
      (recordSale dbW 1 "P" "C" q 2 "w@x" "W" none 0).2 = .error .notEnoughStock ↔
        mPanadol.quantity < q) ∧
    (∀ q : Int, ¬ mPanadol.quantity < q →
      ∃ db1 sale, recordSale dbW 1 "P" "C" q 2 "w@x" "W" none 0 = (db1, .ok sale) ∧
        sale.quantity = q ∧ sale.total = 2 * ((q : Int) : Rat) ∧
        quantityOf db1 1 = some (mPanadol.quantity - q) ∧
        (q = 0 → quantityOf db1 1 = some mPanadol.quantity) ∧
        (q < 0 → quantityOf db1 1 = some (mPanadol.quantity + (-q)) ∧
          ((0 : Rat) < 2 → sale.total < 0))) :=
  spec_C10 dbW (by decide) 1 "P" "C" 2 "w@x" "W" none 0 mPanadol (by decide)

/-! ## Claim C4 -/

/-- The `medicineMap` keys in insertion (first-appearance) order. -/
def keysInOrder (meds : List Medicine) : List String :=
  meds.foldl (fun acc med =>
    if acc.any (fun k => k = nameKey med) then acc else acc ++ [nameKey med]) []

theorem buildMedicineMap_append (meds : List Medicine) (m : Medicine) :
    buildMedicineMap (meds ++ [m]) =
      (if (buildMedicineMap meds).any (fun kv => kv.1 = nameKey m) then
        (buildMedicineMap meds).map (fun kv =>
          if kv.1 = nameKey m then (kv.1, kv.2 ++ [m]) else kv)
      else buildMedicineMap meds ++ [(nameKey m, [m])]) := by
  unfold buildMedicineMap
  rw [List.foldl_append]
  rfl

theorem keysInOrder_append (meds : List Medicine) (m : Medicine) :
    keysInOrder (meds ++ [m]) =
      (if (keysInOrder meds).any (fun k => k = nameKey m) then keysInOrder meds
       else keysInOrder meds ++ [nameKey m]) := by
  unfold keysInOrder
  rw [List.foldl_append]
  rfl

theorem mem_keysInOrder {meds : List Medicine} {k : String} :
    k ∈ keysInOrder meds ↔ ∃ m ∈ meds, nameKey m = k := by
  induction meds using List.reverseRecOn with
  | nil => simp [keysInOrder]
  | append_singleton meds m ih =>
    rw [keysInOrder_append]
    by_cases hin : (keysInOrder meds).any (fun x => x = nameKey m) = true
    · rw [if_pos hin]
      constructor
      · intro hk
        rcases ih.mp hk with ⟨x, hx, e⟩
        exact ⟨x, List.mem_append_left _ hx, e⟩
      · rintro ⟨x, hx, e⟩
        rcases List.mem_append.mp hx with hx1 | hx1
        · exact ih.mpr ⟨x, hx1, e⟩
        · rw [List.mem_singleton] at hx1
          subst hx1
          rcases List.any_eq_true.mp hin with ⟨k2, hk2, he2⟩
          have : k2 = nameKey x := of_decide_eq_true he2
          rw [← e, ← this]
          exact hk2
    · rw [if_neg hin]
      constructor
      · intro hk
        rcases List.mem_append.mp hk with hk1 | hk1
        · rcases ih.mp hk1 with ⟨x, hx, e⟩
          exact ⟨x, List.mem_append_left _ hx, e⟩
        · rw [List.mem_singleton] at hk1
          exact ⟨m, List.mem_append_right _ (List.mem_singleton.mpr rfl), hk1.symm⟩
      · rintro ⟨x, hx, e⟩
        rcases List.mem_append.mp hx with hx1 | hx1
        · exact List.mem_append_left _ (ih.mpr ⟨x, hx1, e⟩)
        · rw [List.mem_singleton] at hx1
          subst hx1
          exact List.mem_append_right _ (List.mem_singleton.mpr e.symm)

theorem filter_singleton_key_eq (m : Medicine) (k : String) (h : k = nameKey m) :
    ([m] : List Medicine).filter (fun x => nameKey x = k) = [m] := by
  have hd : (decide (nameKey m = k)) = true := decide_eq_true h.symm
  simp [List.filter, hd]

theorem filter_singleton_key_ne (m : Medicine) (k : String) (h : ¬ k = nameKey m) :
    ([m] : List Medicine).filter (fun x => nameKey x = k) = [] := by
  have hd : (decide (nameKey m = k)) = false := decide_eq_false (fun hc => h hc.symm)
  simp [List.filter, hd]

theorem buildMedicineMap_spec (meds : List Medicine) :
    buildMedicineMap meds =
      (keysInOrder meds).map (fun k => (k, meds.filter (fun m => nameKey m = k))) := by
  induction meds using List.reverseRecOn with
  | nil => rfl
  | append_singleton meds m ih =>
    rw [buildMedicineMap_append, keysInOrder_append, ih]
    have hany : ∀ ks : List String, ((ks.map
          (fun k => (k, meds.filter (fun m => nameKey m = k)))).any
        (fun kv => kv.1 = nameKey m)) =
        (ks.any (fun k => k = nameKey m)) := by
      intro ks
      induction ks with
      | nil => rfl
      | cons a t iht => simp [List.any_cons, iht]
    rw [hany (keysInOrder meds)]
    by_cases hin : (keysInOrder meds).any (fun k => k = nameKey m) = true
    · rw [if_pos hin, if_pos hin, List.map_map]
      refine List.map_congr_left ?_
      intro k hk
      show (if k = nameKey m then (k, meds.filter (fun x => nameKey x = k) ++ [m])
          else (k, meds.filter (fun x => nameKey x = k))) =
        (k, (meds ++ [m]).filter (fun x => nameKey x = k))
      by_cases hkm : k = nameKey m
      · rw [if_pos hkm, List.filter_append, filter_singleton_key_eq m k hkm]
      · rw [if_neg hkm, List.filter_append, filter_singleton_key_ne m k hkm,
          List.append_nil]
    · rw [if_neg hin, if_neg hin, List.map_append]
      congr 1
      · refine List.map_congr_left ?_
        intro k hk
        have hkm : ¬ k = nameKey m := by
          intro hc
          refine hin (List.any_eq_true.mpr ⟨k, hk, ?_⟩)
          exact decide_eq_true hc
        rw [List.filter_append, filter_singleton_key_ne m k hkm, List.append_nil]
      · rw [List.map_singleton]
        have hnone : meds.filter (fun x => nameKey x = nameKey m) = [] := by
          rw [List.filter_eq_nil]
          intro x hx
          simp only [decide_eq_true_eq]
          intro hc
          refine hin ?_
          refine List.any_eq_true.mpr ⟨nameKey x, mem_keysInOrder.mpr ⟨x, hx, rfl⟩, ?_⟩
          exact decide_eq_true hc
        rw [List.filter_append, filter_singleton_key_eq m (nameKey m) rfl, hnone,
          List.nil_append]

theorem find?_keyed_map_eq (ks : List String) (f : String → List Medicine)
    (key : String) :
    ((ks.map (fun k => (k, f k))).find? (fun kv => kv.1 = key)) =
      (ks.find? (fun k => k = key)).map (fun k => (k, f k)) := by
  induction ks with
  | nil => rfl
  | cons k ks ih =>
    simp only [List.map_cons, List.find?_cons]
    cases hp : (decide (k = key))
    · simpa [hp] using ih
    · simp [hp]

theorem find?_keyed_map_strip (ks : List String) (f : String → List Medicine)
    (b : String) :
    ((ks.map (fun k => (k, f k))).find? (fun kv => stripKey kv.1 = b)) =
      (ks.find? (fun k => stripKey k = b)).map (fun k => (k, f k)) := by
  induction ks with
  | nil => rfl
  | cons k ks ih =>
    simp only [List.map_cons, List.find?_cons]
    cases hp : (decide (stripKey k = b))
    · simpa [hp] using ih
    · simp [hp]

theorem exactMatches_eq (meds : List Medicine) (key : String) :
    exactMatches (buildMedicineMap meds) key =
      meds.filter (fun m => nameKey m = key) := by
  unfold exactMatches
  rw [buildMedicineMap_spec, find?_keyed_map_eq]
  cases hf : (keysInOrder meds).find? (fun k => k = key) with
  | none =>
    have h2 : ∀ x ∈ meds, ¬ nameKey x = key := by
      intro x hx hc
      have hmem : key ∈ keysInOrder meds := mem_keysInOrder.mpr ⟨x, hx, hc⟩
      have h3 := List.find?_eq_none.mp hf key hmem
      simp at h3
    have h4 : meds.filter (fun m => nameKey m = key) = [] := by
      rw [List.filter_eq_nil]
      intro x hx
      simpa using h2 x hx
    rw [h4]
    rfl
  | some k =>
    have hk : k = key :=
      of_decide_eq_true (@List.find?_some String (fun k => k = key) k _ hf)
    subst hk
    rfl

theorem fuzzyMatches_eq (meds : List Medicine) (key : String) :
    fuzzyMatches (buildMedicineMap meds) key =
      (match (keysInOrder meds).find? (fun k => stripKey k = stripKey key) with
       | some k => meds.filter (fun m => nameKey m = k)
       | none => []) := by
  unfold fuzzyMatches
  rw [buildMedicineMap_spec, find?_keyed_map_strip]
  cases hf : (keysInOrder meds).find? (fun k => stripKey k = stripKey key) <;> rfl

/-- Step (2) candidates of the amended claim: the first name group, in
medicine-list order, whose key matches after stripping the qualifier. -/
def fuzzyAmended (meds : List Medicine) (key : String) : List Medicine :=
  match (keysInOrder meds).find? (fun k => stripKey k = stripKey key) with
  | some k => meds.filter (fun m => nameKey m = k)
  | none => []

/-- Step (1) candidates: medicines whose lower-cased trimmed name equals the
sale's key. -/
def exactAmended (meds : List Medicine) (key : String) : List Medicine :=
  meds.filter (fun m => nameKey m = key)

/-- The profit-attribution priority of the amended claim C4, defined directly
over the medicine list following the claim's words. -/
def resolveAmended (meds : List Medicine) (sale : Sale) : Option Rat :=
  match (findMedicineIn meds sale.medicine).bind (fun m => m.purchasePrice) with
  | some p => some p
  | none =>
    if sale.medicineName = "" then none
    else
      pickByClinic
        (if (exactAmended meds (trimStr (lowerStr sale.medicineName))).isEmpty then
          fuzzyAmended meds (trimStr (lowerStr sale.medicineName))
        else exactAmended meds (trimStr (lowerStr sale.medicineName)))
        sale.clinic

/-- Step (2) candidates as the original claim words them: ALL medicines whose
stripped name matches the sale's stripped name. -/
def fuzzyClaimed (meds : List Medicine) (key : String) : List Medicine :=
  meds.filter (fun m => stripKey (nameKey m) = stripKey key)

/-- The profit-attribution priority exactly as claim C4 states it (candidates
of the fuzzy step are all strip-matching medicines). -/
def resolveClaimed (meds : List Medicine) (sale : Sale) : Option Rat :=
  match (findMedicineIn meds sale.medicine).bind (fun m => m.purchasePrice) with
  | some p => some p
  | none =>
    if sale.medicineName = "" then none
    else
      pickByClinic
        (if (exactAmended meds (trimStr (lowerStr sale.medicineName))).isEmpty then
          fuzzyClaimed meds (trimStr (lowerStr sale.medicineName))
        else exactAmended meds (trimStr (lowerStr sale.medicineName)))
        sale.clinic

def medPNew : Medicine :=
  { id := 10, name := "Panadol New", description := "", quantity := 5,
    purchasePrice := none, clinic := "Other" }

def medPOld : Medicine :=
  { id := 11, name := "Panadol Old", description := "", quantity := 5,
    purchasePrice := some 5, clinic := "C" }

def saleUpd : Sale :=
  { id := 1, medicine := 99, medicineName := "Panadol Updated", clinic := "C",
    quantity := 2, rate := 8, total := 16, soldBy := "w@x", soldByName := "W",
    soldAt := 0 }

/-- Counterexample to C4 as stated: with medicines `"Panadol New"` (clinic
`Other`, no purchase price) before `"Panadol Old"` (clinic `C`, price 5) and a
sale named `"Panadol Updated"` in clinic `C` whose reference dangles, the code
takes only the FIRST strip-matching name group (`"panadol new"`), finds no
usable price and yields `none`, while the claim's procedure (all
strip-matching candidates, then clinic preference) resolves price 5. -/
theorem spec_C4_cx :
    resolvePurchasePrice [medPNew, medPOld] (buildMedicineMap [medPNew, medPOld])
        saleUpd = none ∧
    resolveClaimed [medPNew, medPOld] saleUpd = some 5 ∧
    ¬ resolvePurchasePrice [medPNew, medPOld] (buildMedicineMap [medPNew, medPOld])
        saleUpd = resolveClaimed [medPNew, medPOld] saleUpd := by
  refine ⟨by decide, by decide, by decide⟩

/-- **C4 (amended).** For every sale whose medicine reference does not
directly supply a purchase price, profit attribution follows: (1) candidates
whose name, lower-cased and trimmed, equals the sale's snapshotted name;
(2) if none, the candidates are the FIRST name group (in medicine-list
order) whose key matches the sale's key after stripping a trailing qualifier
token `(new|old|latest|updated)` from both; (3) among candidates, the first
with clinic exactly equal to the sale's clinic, else the first whose clinic
starts (case-insensitively) with the sale's clinic, else any candidate with a
non-null purchase price. -/
theorem spec_C4 (meds : List Medicine) (sale : Sale) :
    resolvePurchasePrice meds (buildMedicineMap meds) sale =
      resolveAmended meds sale := by
  unfold resolvePurchasePrice resolveAmended lookupByName
  cases (findMedicineIn meds sale.medicine).bind (fun m => m.purchasePrice) with
  | some p => rfl
  | none =>
    by_cases hn : sale.medicineName = ""
    · rw [if_pos hn, if_pos hn]
    · rw [if_neg hn, if_neg hn]
      rw [exactMatches_eq, fuzzyMatches_eq]
      rfl

/-- Witness: the amended C4 at the concrete counterexample store (where the
code resolves no price) and at `dbW`'s store. -/
theorem spec_C4_witness :
    resolvePurchasePrice [medPNew, medPOld] (buildMedicineMap [medPNew, medPOld])
        saleUpd = resolveAmended [medPNew, medPOld] saleUpd ∧
    resolvePurchasePrice [mPanadol] (buildMedicineMap [mPanadol]) sPanadol =
      resolveAmended [mPanadol] sPanadol :=
  ⟨spec_C4 [medPNew, medPOld] saleUpd, spec_C4 [mPanadol] sPanadol⟩

/-! ## Claim C5 -/

/-- The profit contribution of one sale, when its purchase price resolves. -/
def saleProfit? (meds : List Medicine) (mmap : List (String × List Medicine))
    (s : Sale) : Option Rat :=
  (resolvePurchasePrice meds mmap s).map
    (fun pp => (s.rate - pp) * ((s.quantity : Int) : Rat))

theorem foldl_totalProfit (meds : List Medicine)
    (mmap : List (String × List Medicine)) (sales : List Sale) :
    ∀ tp gs, (sales.foldl (analyticsStep meds mmap) (tp, gs)).1 =
      tp + (sales.filterMap (saleProfit? meds mmap)).sum := by
  induction sales with
  | nil =>
    intro tp gs
    simp
  | cons s rest ih =>
    intro tp gs
    rw [List.foldl_cons]
    cases hr : resolvePurchasePrice meds mmap s with
    | some pp =>
      have hsp : saleProfit? meds mmap s =
          some ((s.rate - pp) * ((s.quantity : Int) : Rat)) := by
        unfold saleProfit?
        rw [hr]
        rfl
      have hstep : analyticsStep meds mmap (tp, gs) s =
          (tp + (s.rate - pp) * ((s.quantity : Int) : Rat),
           profitGroup s ((s.rate - pp) * ((s.quantity : Int) : Rat))
             (bumpGroup s (ensureGroup s.medicineName gs))) := by
        unfold analyticsStep
        rw [hr]
      rw [hstep, ih]
      simp only [List.filterMap_cons, hsp, List.sum_cons]
      ring
    | none =>
      have hsp : saleProfit? meds mmap s = none := by
        unfold saleProfit?
        rw [hr]
        rfl
      have hstep : analyticsStep meds mmap (tp, gs) s =
          (tp, bumpGroup s (ensureGroup s.medicineName gs)) := by
        unfold analyticsStep
        rw [hr]
      rw [hstep, ih]
      simp only [List.filterMap_cons, hsp]

theorem mem_ensureGroup {n : String} {gs : List (String × MedGroup)}
    {kv : String × MedGroup} (h : kv ∈ ensureGroup n gs) :
    kv ∈ gs ∨ kv = (n, (⟨n, 0, 0, 0, false⟩ : MedGroup)) := by
  unfold ensureGroup at h
  split at h
  · exact Or.inl h
  · rcases List.mem_append.mp h with h1 | h1
    · exact Or.inl h1
    · exact Or.inr (List.mem_singleton.mp h1)

theorem mem_bumpGroup {s : Sale} {gs : List (String × MedGroup)}
    {kv : String × MedGroup} (h : kv ∈ bumpGroup s gs) :
    ∃ kv0 ∈ gs, kv.1 = kv0.1 ∧ kv.2.name = kv0.2.name ∧
      kv.2.hasPurchase = kv0.2.hasPurchase := by
  unfold bumpGroup at h
  rcases List.mem_map.mp h with ⟨kv0, hkv0, hkv⟩
  by_cases hc : kv0.1 = s.medicineName
  · rw [if_pos hc] at hkv
    subst hkv
    exact ⟨kv0, hkv0, rfl, rfl, rfl⟩
  · rw [if_neg hc] at hkv
    subst hkv
    exact ⟨kv0, hkv0, rfl, rfl, rfl⟩

theorem mem_profitGroup {s : Sale} {sp : Rat} {gs : List (String × MedGroup)}
    {kv : String × MedGroup} (h : kv ∈ profitGroup s sp gs) :
    ∃ kv0 ∈ gs, kv.1 = kv0.1 ∧ kv.2.name = kv0.2.name ∧
      (kv.2.hasPurchase = true → kv0.2.hasPurchase = true ∨ kv.1 = s.medicineName) := by
  unfold profitGroup at h
  rcases List.mem_map.mp h with ⟨kv0, hkv0, hkv⟩
  by_cases hc : kv0.1 = s.medicineName
  · rw [if_pos hc] at hkv
    subst hkv
    exact ⟨kv0, hkv0, rfl, rfl, fun _ => Or.inr hc⟩
  · rw [if_neg hc] at hkv
    subst hkv
    exact ⟨kv0, hkv0, rfl, rfl, fun hp => Or.inl hp⟩

/-- Invariant of the analytics group map: each group's record carries its own
key as name, and a group has `hasPurchase` only if some sale of that name
resolved a purchase price. -/
def groupInv (sales : List Sale) (meds : List Medicine)
    (mmap : List (String × List Medicine)) (gs : List (String × MedGroup)) : Prop :=
  ∀ kv ∈ gs, kv.2.name = kv.1 ∧
    (kv.2.hasPurchase = true → ∃ s ∈ sales, s.medicineName = kv.1 ∧
      ¬ resolvePurchasePrice meds mmap s = none)

theorem groupInv_ensure (sales : List Sale) (meds : List Medicine)
    (mmap : List (String × List Medicine)) (n : String)
    {gs : List (String × MedGroup)} (hI : groupInv sales meds mmap gs) :
    groupInv sales meds mmap (ensureGroup n gs) := by
  intro kv hkv
  rcases mem_ensureGroup hkv with h1 | h1
  · exact hI kv h1
  · subst h1
    exact ⟨rfl, fun hp => by cases hp⟩

theorem groupInv_bump (sales : List Sale) (meds : List Medicine)
    (mmap : List (String × List Medicine)) (s : Sale)
    {gs : List (String × MedGroup)} (hI : groupInv sales meds mmap gs) :
    groupInv sales meds mmap (bumpGroup s gs) := by
  intro kv hkv
  rcases mem_bumpGroup hkv with ⟨kv0, hkv0, h1, h2, h3⟩
  obtain ⟨hn, hp⟩ := hI kv0 hkv0
  constructor
  · rw [h2, hn, h1]
  · intro hhp
    rw [h3] at hhp
    rcases hp hhp with ⟨t, ht, htn, htr⟩
    exact ⟨t, ht, by rw [htn, h1], htr⟩

theorem groupInv_profit (sales : List Sale) (meds : List Medicine)
    (mmap : List (String × List Medicine)) (s : Sale) (hs : s ∈ sales)
    (sp : Rat) (hres : ¬ resolvePurchasePrice meds mmap s = none)
    {gs : List (String × MedGroup)} (hI : groupInv sales meds mmap gs) :
    groupInv sales meds mmap (profitGroup s sp gs) := by
  intro kv hkv
  rcases mem_profitGroup hkv with ⟨kv0, hkv0, h1, h2, h3⟩
  obtain ⟨hn, hp⟩ := hI kv0 hkv0
  constructor
  · rw [h2, hn, h1]
  · intro hhp
    rcases h3 hhp with h4 | h4
    · rcases hp h4 with ⟨t, ht, htn, htr⟩
      exact ⟨t, ht, by rw [htn, h1], htr⟩
    · exact ⟨s, hs, h4.symm, hres⟩

theorem groupInv_foldl (sales : List Sale) (meds : List Medicine)
    (mmap : List (String × List Medicine)) (l : List Sale)
    (hl : ∀ s ∈ l, s ∈ sales) :
    ∀ acc : Rat × List (String × MedGroup), groupInv sales meds mmap acc.2 →
      groupInv sales meds mmap (l.foldl (analyticsStep meds mmap) acc).2 := by
  induction l with
  | nil => intro acc hI; exact hI
  | cons s rest ih =>
    intro acc hI
    rw [List.foldl_cons]
    have hsmem : s ∈ sales := hl s (List.mem_cons_self s rest)
    have hrest : ∀ t ∈ rest, t ∈ sales := fun t ht => hl t (List.mem_cons_of_mem s ht)
    refine ih hrest _ ?_
    cases hr : resolvePurchasePrice meds mmap s with
    | some pp =>
      have hstep : analyticsStep meds mmap acc s =
          (acc.1 + (s.rate - pp) * ((s.quantity : Int) : Rat),
           profitGroup s ((s.rate - pp) * ((s.quantity : Int) : Rat))
             (bumpGroup s (ensureGroup s.medicineName acc.2))) := by
        unfold analyticsStep
        rw [hr]
      rw [hstep]
      exact groupInv_profit sales meds mmap s hsmem _ (by rw [hr]; intro hc; cases hc)
        (groupInv_bump sales meds mmap s
          (groupInv_ensure sales meds mmap s.medicineName hI))
    | none =>
      have hstep : analyticsStep meds mmap acc s =
          (acc.1, bumpGroup s (ensureGroup s.medicineName acc.2)) := by
        unfold analyticsStep
        rw [hr]
      rw [hstep]
      exact groupInv_bump sales meds mmap s
        (groupInv_ensure sales meds mmap s.medicineName hI)

theorem mem_insertByQty {g x : GroupOut} :
    ∀ {l : List GroupOut}, x ∈ insertByQty g l → x = g ∨ x ∈ l := by
  intro l
  induction l with
  | nil =>
    intro h
    rcases List.mem_singleton.mp h with h1
    exact Or.inl h1
  | cons a t ih =>
    intro h
    unfold insertByQty at h
    split at h
    · rcases List.mem_cons.mp h with h1 | h1
      · exact Or.inl h1
      · exact Or.inr h1
    · rcases List.mem_cons.mp h with h1 | h1
      · exact Or.inr (h1 ▸ List.mem_cons_self a t)
      · rcases ih h1 with h2 | h2
        · exact Or.inl h2
        · exact Or.inr (List.mem_cons_of_mem a h2)

theorem mem_sortByQtyDesc {x : GroupOut} {l : List GroupOut}
    (h : x ∈ sortByQtyDesc l) : x ∈ l := by
  induction l with
  | nil => exact h
  | cons a t ih =>
    unfold sortByQtyDesc at h
    rw [List.foldr_cons] at h
    rcases mem_insertByQty h with h1 | h1
    · exact h1 ▸ List.mem_cons_self a t
    · exact List.mem_cons_of_mem a (ih h1)

/-- **C5.** In every analytics result, a medicine group none of whose sales
resolved a purchase price reports `profit` as `null` (not zero); and
`totalProfit` sums `(rate − purchasePrice) × quantity` over exactly the sales
whose purchase price resolved, while every sale contributes to `totalSales`
and `totalRevenue`. -/
theorem spec_C5 (meds : List Medicine) (sales : List Sale) :
    (analytics meds sales).totalSales = (sales.map (fun s => s.quantity)).sum ∧
    (analytics meds sales).totalRevenue = (sales.map (fun s => s.total)).sum ∧
    (analytics meds sales).totalProfit =
      (sales.filterMap (saleProfit? meds (buildMedicineMap meds))).sum ∧
    (∀ g ∈ (analytics meds sales).topMedicines,
      (∀ s ∈ sales, s.medicineName = g.name →
        resolvePurchasePrice meds (buildMedicineMap meds) s = none) →
      g.profit = none) := by
  refine ⟨rfl, rfl, ?_, ?_⟩
  · show (sales.foldl (analyticsStep meds (buildMedicineMap meds)) (0, [])).1 = _
    rw [foldl_totalProfit, zero_add]
  · intro g hg hnone
    have hg2 : g ∈ (sortByQtyDesc
        (((sales.foldl (analyticsStep meds (buildMedicineMap meds)) (0, [])).2).map
          (fun kv => finalizeGroup kv.2))).take 10 := hg
    have hg3 := List.mem_of_mem_take hg2
    have hg4 := mem_sortByQtyDesc hg3
    rcases List.mem_map.mp hg4 with ⟨kv, hkv, hfin⟩
    have hI := groupInv_foldl sales meds (buildMedicineMap meds) sales
      (fun s hs => hs) (0, []) (by intro kv0 hkv0; cases hkv0)
    obtain ⟨hn, hp⟩ := hI kv hkv
    cases hhp : kv.2.hasPurchase with
    | false =>
      rw [← hfin]
      unfold finalizeGroup
      rw [hhp]
      rfl
    | true =>
      exfalso
      rcases hp hhp with ⟨s, hsmem, hsname, hres⟩
      refine hres (hnone s hsmem ?_)
      rw [hsname, ← hn, ← hfin]
      rfl

/-- Witness: C5 at a store with no medicines and one unresolvable sale. -/
theorem spec_C5_witness :
    (analytics [] [saleUpd]).totalSales = ([saleUpd].map (fun s => s.quantity)).sum ∧
    (analytics [] [saleUpd]).totalRevenue = ([saleUpd].map (fun s => s.total)).sum ∧
    (analytics [] [saleUpd]).totalProfit =
      ([saleUpd].filterMap (saleProfit? [] (buildMedicineMap []))).sum ∧
    (∀ g ∈ (analytics [] [saleUpd]).topMedicines,
      (∀ s ∈ [saleUpd], s.medicineName = g.name →
        resolvePurchasePrice [] (buildMedicineMap []) s = none) →
      g.profit = none) :=
  spec_C5 [] [saleUpd]
